import Mathlib

/-!
Verification development for the lexical-analysis and expression-parsing core
of a GameBoy assembler written in Rust.  The Rust sources are shallowly
embedded: byte strings become `List Nat`, the `f32` numeric payloads become
exact rationals `Rat`, machine integers become `Nat`/`Int` with explicit
wrap-around arithmetic (`% 256`, `% 2^32`) where overflow matters, and every
panicking operation (`unwrap`, `assert_eq!`, `unreachable!`) is modelled by
an `Option` result, `none` standing for a panic (or for a provably
non-terminating loop).  Error message strings are abstracted into the
`ErrorMsg` enumeration, one constructor per `format!` call site in the
source.  Bounded source loops are given explicit fuel; every wrapper passes
fuel larger than the loop can consume, and running out of fuel yields the
`ErrorMsg.OutOfFuel` marker (never produced for any real execution).
-/

/-- Mirrors `enum Operator` of `src/parser/operator.rs`. -/
inductive Operator where
  | Paren
  | Call
  | LogicalOr
  | LogicalAnd
  | BitwiseOr
  | BitwiseXor
  | BitwiseAnd
  | Equal
  | NotEqual
  | LessThan
  | GreaterThan
  | LessThanEqual
  | GreaterThanEqual
  | ShiftLeft
  | ShiftRight
  | Plus
  | Minus
  | Negate
  | Multiply
  | Divide
  | Modulo
  | Power
  | IntegerDivide
  | UnaryNot
  | UnaryMinus
  deriving DecidableEq, Repr

/-- Mirrors `Operator::get_prec` of `src/parser/operator.rs`. -/
def Operator.get_prec : Operator → Int
  | .Paren => 0
  | .Call => 0
  | .LogicalOr => 1
  | .LogicalAnd => 2
  | .BitwiseOr => 3
  | .BitwiseXor => 4
  | .BitwiseAnd => 5
  | .Equal => 6
  | .NotEqual => 6
  | .LessThan => 7
  | .GreaterThan => 7
  | .LessThanEqual => 7
  | .GreaterThanEqual => 7
  | .ShiftLeft => 8
  | .ShiftRight => 8
  | .Plus => 9
  | .Minus => 9
  | .Negate => 9
  | .Multiply => 11
  | .Divide => 11
  | .IntegerDivide => 11
  | .Modulo => 11
  | .UnaryNot => 12
  | .UnaryMinus => 12
  | .Power => 13

/-- Abstraction of the error message strings produced by the lexer sources,
one constructor per `format!`/`to_string` call site. `OutOfFuel` is a
modelling artefact for the explicit loop fuel; it is unreachable for the
fuel amounts the wrappers pass. -/
inductive ErrorMsg where
  | UnexpectedCharacter (c : Nat)
  | UnknownEscape (c : Nat)
  | UnclosedString
  | InvalidStringContents
  | DecimalTooLong
  | BinaryTooLong
  | HexTooLong
  | InvalidOperator (c : Nat)
  | UnexpectedEmptyName
  | UnexpectedOffsetSign (c : Nat)
  | ExpectedNumberAfterOffset
  | MacroArgOutside (name : List Nat)
  | AlreadyInMacroArgs
  | ExpectedNameAfterMacro
  | MacroEndOutside
  | OutOfFuel
  deriving DecidableEq, Repr

/-- Exact-fraction stand-in for the `f32` numeric payloads of the source:
`num / den` as an unreduced integer fraction.  The token constructions of
the scanner build these deterministically (integers get denominator 1,
a fractional literal gets denominator `10 ^ fraction_digits`), so the
structural equality used below coincides with value equality on every
value a single scan can produce twice.  Exact rationals are a faithful
model of the source's `f32` arithmetic for the literal sizes the scanner
admits (at most 8 digits), except that `f32` would round values needing
more than 24 bits of mantissa; no claim below depends on that rounding. -/
structure NumVal where
  num : Int
  den : Nat
  deriving DecidableEq, Repr

/-- Embed a scanner-accumulated `Nat` (the source casts `i32` to `f32`). -/
def NumVal.ofNat (n : Nat) : NumVal := ⟨n, 1⟩

/-- Negation of a numeric payload (`-float` / `-number` in the source). -/
def NumVal.neg (v : NumVal) : NumVal := ⟨-v.num, v.den⟩

/-- Addition of numeric payloads (`integer + fraction` in
`parse_decimal`). -/
def NumVal.add (a b : NumVal) : NumVal :=
  ⟨a.num * b.den + b.num * a.den, a.den * b.den⟩

/-- Division of numeric payloads (`fraction / 10^digits` in
`parse_decimal`; the divisor is always a positive integer there). -/
def NumVal.div (a b : NumVal) : NumVal :=
  ⟨a.num * b.den, a.den * b.num.natAbs⟩

/-- The rational value of a payload, for readability of statements. -/
def NumVal.toRat (v : NumVal) : Rat := (v.num : Rat) / (v.den : Rat)

/-- Mirrors `enum Expression` of `src/parser/expression.rs`; the `f32`
payload becomes `NumVal`, strings become byte lists, and the single
`Invalid(message)` site keeps no payload. -/
inductive Expression where
  | Number (value : NumVal)
  | String (value : List Nat)
  | Name (value : List Nat)
  | Binary (op : Operator) (left : Expression) (right : Expression)
  | Unary (op : Operator) (right : Expression)
  | Call (name : List Nat) (args : List Expression)
  | Invalid
  deriving Repr

mutual
/-- Structural equality test for `Expression` (the nested `Call` argument
list prevents the derived instance). -/
def Expression.beq : Expression → Expression → Bool
  | .Number a, .Number b => decide (a = b)
  | .String a, .String b => decide (a = b)
  | .Name a, .Name b => decide (a = b)
  | .Binary o l r, .Binary o2 l2 r2 =>
    decide (o = o2) && Expression.beq l l2 && Expression.beq r r2
  | .Unary o r, .Unary o2 r2 => decide (o = o2) && Expression.beq r r2
  | .Call n a, .Call n2 a2 => decide (n = n2) && Expression.beqList a a2
  | .Invalid, .Invalid => true
  | _, _ => false
/-- Structural equality test for lists of expressions. -/
def Expression.beqList : List Expression → List Expression → Bool
  | [], [] => true
  | x :: xs, y :: ys => Expression.beq x y && Expression.beqList xs ys
  | _, _ => false
end

mutual
/-- `Expression.beq` is sound. -/
theorem Expression.eq_of_beq : ∀ {a b : Expression}, Expression.beq a b = true → a = b
  | .Number a, .Number b, h => by
    simp only [Expression.beq, decide_eq_true_eq] at h; rw [h]
  | .String a, .String b, h => by
    simp only [Expression.beq, decide_eq_true_eq] at h; rw [h]
  | .Name a, .Name b, h => by
    simp only [Expression.beq, decide_eq_true_eq] at h; rw [h]
  | .Binary o l r, .Binary o2 l2 r2, h => by
    simp only [Expression.beq, Bool.and_eq_true, decide_eq_true_eq] at h
    rw [h.1.1, Expression.eq_of_beq h.1.2, Expression.eq_of_beq h.2]
  | .Unary o r, .Unary o2 r2, h => by
    simp only [Expression.beq, Bool.and_eq_true, decide_eq_true_eq] at h
    rw [h.1, Expression.eq_of_beq h.2]
  | .Call n a, .Call n2 a2, h => by
    simp only [Expression.beq, Bool.and_eq_true, decide_eq_true_eq] at h
    rw [h.1, Expression.eqList_of_beqList h.2]
  | .Invalid, .Invalid, _ => rfl
/-- `Expression.beqList` is sound. -/
theorem Expression.eqList_of_beqList :
    ∀ {a b : List Expression}, Expression.beqList a b = true → a = b
  | [], [], _ => rfl
  | x :: xs, y :: ys, h => by
    simp only [Expression.beqList, Bool.and_eq_true] at h
    rw [Expression.eq_of_beq h.1, Expression.eqList_of_beqList h.2]
end

mutual
/-- `Expression.beq` is reflexive. -/
theorem Expression.beq_refl : ∀ a : Expression, Expression.beq a a = true
  | .Number a => by simp [Expression.beq]
  | .String a => by simp [Expression.beq]
  | .Name a => by simp [Expression.beq]
  | .Binary o l r => by
    simp [Expression.beq, Expression.beq_refl l, Expression.beq_refl r]
  | .Unary o r => by simp [Expression.beq, Expression.beq_refl r]
  | .Call n a => by simp [Expression.beq, Expression.beqList_refl a]
  | .Invalid => rfl
/-- `Expression.beqList` is reflexive. -/
theorem Expression.beqList_refl : ∀ a : List Expression, Expression.beqList a a = true
  | [] => rfl
  | x :: xs => by
    simp [Expression.beqList, Expression.beq_refl x, Expression.beqList_refl xs]
end

instance : DecidableEq Expression := fun a b =>
  if h : Expression.beq a b = true then isTrue (Expression.eq_of_beq h)
  else isFalse (fun he => h (he ▸ Expression.beq_refl a))

/-- Mirrors `enum Token` of `src/parser/token.rs`. -/
inductive Token where
  | Newline
  | Whitespace
  | Comment (text : List Nat)
  | String (text : List Nat)
  | Directive (text : List Nat)
  | Instruction (text : List Nat)
  | Expression (e : Expression)
  | Name (text : List Nat)
  | Number (value : NumVal)
  | Operator (op : Operator)
  | GlobalLabelDef (text : List Nat)
  | LocalLabelDef (text : List Nat)
  | LocalLabelRef (text : List Nat)
  | Offset (value : Int)
  | Error (msg : ErrorMsg)
  | Macro (text : List Nat)
  | MacroArg (text : List Nat)
  | MacroDef
  | MacroEnd
  | NegativeOffset
  | PositiveOffset
  | LParen
  | RParen
  | LBrace
  | RBrace
  | Comma
  | Eof
  deriving DecidableEq, Repr

/-- Mirrors `enum TokenType` of `src/parser/token.rs`. -/
inductive TokenType where
  | Newline
  | Whitespace
  | Comment
  | String
  | Directive
  | Instruction
  | Expression
  | Name
  | Number
  | Operator
  | GlobalLabelDef
  | LocalLabelDef
  | LocalLabelRef
  | Offset
  | Error
  | Macro
  | MacroArg
  | MacroDef
  | MacroEnd
  | NegativeOffset
  | PositiveOffset
  | LParen
  | RParen
  | LBrace
  | RBrace
  | Comma
  | Begin
  | Eof
  deriving DecidableEq, Repr

/-- Mirrors `Token::to_type` of `src/parser/token.rs`. -/
def Token.to_type : Token → TokenType
  | .Newline => .Newline
  | .Whitespace => .Whitespace
  | .Comment _ => .Comment
  | .String _ => .String
  | .Directive _ => .Directive
  | .Instruction _ => .Instruction
  | .Expression _ => .Expression
  | .Name _ => .Name
  | .Number _ => .Number
  | .Operator _ => .Operator
  | .GlobalLabelDef _ => .GlobalLabelDef
  | .LocalLabelDef _ => .LocalLabelDef
  | .LocalLabelRef _ => .LocalLabelRef
  | .Offset _ => .Offset
  | .Error _ => .Error
  | .Macro _ => .Macro
  | .MacroArg _ => .MacroArg
  | .MacroDef => .MacroDef
  | .MacroEnd => .MacroEnd
  | .NegativeOffset => .NegativeOffset
  | .PositiveOffset => .PositiveOffset
  | .LParen => .LParen
  | .RParen => .RParen
  | .LBrace => .LBrace
  | .RBrace => .RBrace
  | .Comma => .Comma
  | .Eof => .Eof

/-- Mirrors `fn is_expression` of `src/parser/lexer.rs` (lines 804-886).
The two leading guard arms of the Rust `match` test the comma rules at
depth 0 first; the remaining arms are an exhaustive pair match with a
`false` catch-all.  There are no arms for `Begin` or `Newline` as `last`. -/
def is_expression (last next : TokenType) (depth : Nat) : Bool :=
  if depth == 0 && (last == TokenType.Comma || next == TokenType.Comma) then
    false
  else
    match last, next with
    | .LParen, .Name => true
    | .LParen, .LocalLabelRef => true
    | .LParen, .Number => true
    | .LParen, .String => true
    | .LParen, .Operator => true
    | .LParen, .LParen => true
    | .LParen, .RParen => true
    | .LParen, .MacroArg => true
    | .RParen, .RParen => true
    | .RParen, .Operator => true
    | .Operator, .LParen => true
    | .Operator, .Number => true
    | .Operator, .String => true
    | .Operator, .LocalLabelRef => true
    | .Operator, .Name => true
    | .Operator, .MacroArg => true
    | .Number, .RParen => true
    | .Number, .Operator => true
    | .Number, .Comma => true
    | .String, .RParen => true
    | .String, .Operator => true
    | .String, .Comma => true
    | .LocalLabelRef, .RParen => true
    | .LocalLabelRef, .Operator => true
    | .LocalLabelRef, .Comma => true
    | .Name, .LParen => true
    | .Name, .RParen => true
    | .Name, .Operator => true
    | .Name, .Comma => true
    | .MacroArg, .LParen => true
    | .MacroArg, .RParen => true
    | .MacroArg, .Operator => true
    | .MacroArg, .Comma => true
    | .Comma, .LParen => true
    | .Comma, .Name => true
    | .Comma, .String => true
    | .Comma, .Number => true
    | .Comma, .MacroArg => true
    | .Directive, .LParen => true
    | .Directive, .Name => true
    | .Directive, .String => true
    | .Directive, .Number => true
    | .Directive, .MacroArg => true
    | .Instruction, .LParen => true
    | .Instruction, .Name => true
    | .Instruction, .String => true
    | .Instruction, .Number => true
    | .Instruction, .MacroArg => true
    | _, _ => false

/-- State of the shunting-yard loop of `Expression::new`
(`src/parser/expression.rs`): the two stacks plus the two flags.  Lists keep
the top of the stack at the head. -/
structure SYState where
  values : List Expression
  operators : List Operator
  valid_unary_position : Bool
  is_callable : Bool
  deriving DecidableEq, Repr

/-- Mirrors the body of `fn consume_operator` once the popped operator is
known: pop the right operand, then build a `Unary` node, or pop the left
operand and build a `Binary` node, falling back to `Invalid` when the left
operand is missing.  `none` models the panic of `values.pop().unwrap()`
when even the right operand is missing. -/
def apply_op (op : Operator) (values : List Expression) : Option (List Expression) :=
  match values with
  | right :: vrest =>
    if op == Operator.UnaryMinus || op == Operator.UnaryNot then
      some (Expression.Unary op right :: vrest)
    else
      match vrest with
      | left :: vrest2 => some (Expression.Binary op left right :: vrest2)
      | [] => some [Expression.Invalid]
  | [] => none

/-- Mirrors `fn consume_operator` of `src/parser/expression.rs` (lines
161-204): pop the topmost operator when its precedence strictly exceeds
`prec` (an `if`, so at most one operator is popped), else do nothing. -/
def consume_operator (values : List Expression) (operators : List Operator)
    (prec : Int) : Option (List Expression × List Operator) :=
  match operators with
  | op :: rest =>
    if op.get_prec > prec then
      match apply_op op values with
      | some values' => some (values', rest)
      | none => none
    else
      some (values, operators)
  | [] => some (values, operators)

/-- Mirrors the `while *operators.last().unwrap() != Operator::Paren`
loop of the `RParen | Comma` arm of `Expression::new`.  The loop calls
`consume_operator(values, operators, 0)`: an empty stack panics on the
`unwrap` (`none`); a top of precedence 0 other than `Paren` (the `Call`
sentinel) makes no progress, so the source loop would never terminate,
also modelled as `none`. -/
def drain_to_paren (operators : List Operator) (values : List Expression) :
    Option (List Expression × List Operator) :=
  match operators with
  | [] => none
  | op :: rest =>
    if op == Operator.Paren then some (values, op :: rest)
    else if op.get_prec > 0 then
      match apply_op op values with
      | some values' => drain_to_paren rest values'
      | none => none
    else
      none

/-- Mirrors the `while values.len() > 0` argument-collection loop of the
`RParen` arm of `Expression::new`: pop values into `args` until a `Name` is
found, then push `Call(name, args.reverse())`.  When the values run out
without a `Name` the source loop just ends with the values exhausted. -/
def pop_call_args (values : List Expression) (args : List Expression) :
    List Expression :=
  match values with
  | [] => []
  | Expression.Name n :: rest => Expression.Call n args.reverse :: rest
  | v :: rest => pop_call_args rest (args ++ [v])

/-- One iteration of the token loop of `Expression::new`
(`src/parser/expression.rs`, lines 25-148).  `none` models a panic
(`unwrap`, or the `_ => unreachable!()` arm) or a hang of the drain loop. -/
def sy_step (st : SYState) (token : Token) : Option SYState :=
  match token with
  | .Number value =>
    some { st with values := Expression.Number value :: st.values,
                   is_callable := false, valid_unary_position := false }
  | .String s =>
    some { st with values := Expression.String s :: st.values,
                   is_callable := false, valid_unary_position := false }
  | .LParen =>
    let operators := if st.is_callable then Operator.Call :: st.operators else st.operators
    some { st with operators := Operator.Paren :: operators,
                   is_callable := false, valid_unary_position := true }
  | .Name n =>
    some { st with values := Expression.Name n :: st.values,
                   is_callable := true, valid_unary_position := false }
  | .Operator op =>
    if st.valid_unary_position then
      -- unary position: a minus is replaced by its unary equivalent
      let op := if op == Operator.Minus then Operator.UnaryMinus else op
      some { st with operators := op :: st.operators,
                     is_callable := false, valid_unary_position := true }
    else
      match consume_operator st.values st.operators op.get_prec with
      | none => none
      | some (values, operators) =>
        some { st with values := values, operators := op :: operators,
                       is_callable := false, valid_unary_position := true }
  | .RParen =>
    match drain_to_paren st.operators st.values with
    | none => none
    | some (values, operators) =>
      -- the matched `Paren` is at the head; pop it
      let operators := operators.tail
      match operators with
      | Operator.Call :: crest =>
        some { st with values := pop_call_args values [],
                       operators := crest,
                       is_callable := false, valid_unary_position := false }
      | _ =>
        some { st with values := values, operators := operators,
                       is_callable := false, valid_unary_position := false }
  | .Comma =>
    match drain_to_paren st.operators st.values with
    | none => none
    | some (values, operators) =>
      some { st with values := values, operators := operators,
                     is_callable := false, valid_unary_position := false }
  | _ => none

/-- The token loop of `Expression::new` over a whole buffer. -/
def sy_run (tokens : List Token) (st : SYState) : Option SYState :=
  match tokens with
  | [] => some st
  | t :: rest =>
    match sy_step st t with
    | none => none
    | some st' => sy_run rest st'

/-- The initial state of `Expression::new`: empty stacks, both flags false. -/
def sy_init : SYState :=
  { values := [], operators := [], valid_unary_position := false, is_callable := false }

/-- Mirrors `Expression::new` of `src/parser/expression.rs`: run the token
loop, then the two final assertions (`operators.len() == 0`,
`values.len() == 1`) and the final `values.pop().unwrap()`; an assertion
failure is a panic, modelled as `none`. -/
def expression_new (tokens : List Token) : Option Expression :=
  match sy_run tokens sy_init with
  | none => none
  | some st =>
    match st.operators, st.values with
    | [], [v] => some v
    | _, _ => none

/-- C2: counterexample.  Processing the buffer prefix `( 1 * 2 ** 3 +` and
then the binary `+` drains only the topmost `**` (precedence 13 > 9) and
pushes `+` while `*` (precedence 11 > 9) is still on the stack below it —
contradicting the claim that every operator of strictly greater precedence
is drained before the incoming operator is pushed. -/
theorem c2_counterexample :
    (sy_run [Token.LParen, Token.Number (NumVal.ofNat 1),
             Token.Operator Operator.Multiply, Token.Number (NumVal.ofNat 2),
             Token.Operator Operator.Power, Token.Number (NumVal.ofNat 3),
             Token.Operator Operator.Plus] sy_init).map SYState.operators =
      some [Operator.Plus, Operator.Multiply, Operator.Paren] ∧
    Operator.get_prec Operator.Multiply > Operator.get_prec Operator.Plus := by
  constructor
  · rfl
  · decide

/-- C2 (amended): when a binary operator token is processed in a non-unary
position, `consume_operator` drains at most the single topmost operator:
even when the two topmost stacked operators both have precedence strictly
greater than the incoming operator's, only the topmost is popped (building
one `Binary` node) and the second remains on the stack below the pushed
incoming operator. -/
theorem c2_single_drain :
    ∀ (vals : List Expression) (v1 v2 : Expression) (o1 o2 : Operator)
      (rest : List Operator) (cb : Bool) (op : Operator),
      o1.get_prec > op.get_prec →
      o2.get_prec > op.get_prec →
      o1 ≠ Operator.UnaryMinus →
      o1 ≠ Operator.UnaryNot →
      sy_step ⟨v1 :: v2 :: vals, o1 :: o2 :: rest, false, cb⟩ (Token.Operator op) =
        some ⟨Expression.Binary o1 v2 v1 :: vals, op :: o2 :: rest, true, false⟩ := by
  intro vals v1 v2 o1 o2 rest cb op h1 _h2 h3 h4
  show (match consume_operator (v1 :: v2 :: vals) (o1 :: o2 :: rest) op.get_prec with
        | none => none
        | some (values, operators) =>
          some { values := values, operators := op :: operators,
                 is_callable := false, valid_unary_position := true : SYState }) =
      some ⟨Expression.Binary o1 v2 v1 :: vals, op :: o2 :: rest, true, false⟩
  rw [consume_operator, if_pos h1]
  cases o1 with
  | UnaryMinus => exact absurd rfl h3
  | UnaryNot => exact absurd rfl h4
  | _ => rfl

/-- C2 witness: the single-drain theorem at a concrete state. -/
theorem c2_single_drain_witness :
    sy_step ⟨[Expression.Number (NumVal.ofNat 3), Expression.Number (NumVal.ofNat 2)],
             [Operator.Power, Operator.Multiply], false, false⟩
        (Token.Operator Operator.Plus) =
      some ⟨[Expression.Binary Operator.Power (Expression.Number (NumVal.ofNat 2))
              (Expression.Number (NumVal.ofNat 3))],
            [Operator.Plus, Operator.Multiply], true, false⟩ :=
  c2_single_drain [] (Expression.Number (NumVal.ofNat 3)) (Expression.Number (NumVal.ofNat 2))
    Operator.Power Operator.Multiply [] false Operator.Plus
    (by decide) (by decide) (by decide) (by decide)

/-- C4: counterexample.  The claim states that after `Begin` a `Name`
token begins an expression run; `is_expression` actually returns `false`
for `(Begin, Name)` at depth 0 (there is no `Begin` arm in the source
`match` at all, so the catch-all applies). -/
theorem c4_counterexample : is_expression TokenType.Begin TokenType.Name 0 = false := by
  decide

/-- C4 (amended): `is_expression` returns `false` whenever `last` is
`Begin` or `Newline`, for every `next` type and every depth — a token at
the very start of the input or right after a newline never begins an
expression run; runs are only entered after `Directive`, `Instruction`,
`Operator`, `LParen` and the other listed left contexts. -/
theorem c4_begin_newline_never_start :
    ∀ (next : TokenType) (depth : Nat),
      is_expression TokenType.Begin next depth = false ∧
      is_expression TokenType.Newline next depth = false := by
  intro next depth
  constructor <;> (unfold is_expression; split
                   · rfl
                   · cases next <;> rfl)

/-- The string-backed source cursor of `src/compiler/source_string.rs`:
`bytes` is the not-yet-consumed remainder of the underlying byte iterator,
`last` the current byte, `empty` the exhausted flag (`is_empty`). -/
structure Cursor where
  bytes : List Nat
  last : Nat
  empty : Bool
  deriving DecidableEq, Repr

/-- Mirrors `SourceString::get`. -/
def Cursor.get (c : Cursor) : Nat := c.last

/-- Mirrors `SourceString::is_empty`. -/
def Cursor.is_empty (c : Cursor) : Bool := c.empty

/-- Mirrors `SourceString::next`: consume one byte and make it current; on
end of input set `empty` and make the current byte the sentinel 0. -/
def Cursor.next (c : Cursor) : Nat × Cursor :=
  match c.bytes with
  | [] => (0, { c with last := 0, empty := true })
  | b :: rest => (b, { c with bytes := rest, last := b })

/-- Mirrors `SourceString::peek`: return the upcoming byte without
consuming it; on end of input it returns 0 and sets `empty`. -/
def Cursor.peek (c : Cursor) : Nat × Cursor :=
  match c.bytes with
  | [] => (0, { c with empty := true })
  | b :: _ => (b, c)

/-- One element of the byte iterator of the file-backed cursor: file reads
are fallible, so each item is a byte or an I/O error
(`io::Result<u8>` in `src/compiler/source_file.rs`). -/
inductive ByteResult where
  | ok (b : Nat)
  | ioFailure
  deriving DecidableEq, Repr

/-- The file-backed source cursor of `src/compiler/source_file.rs`
(the `bytes`/`last`/`empty` fields; the path bookkeeping fields carry no
behaviour and are omitted). -/
structure FileCursor where
  bytes : List ByteResult
  last : Nat
  empty : Bool
  deriving DecidableEq, Repr

/-- Mirrors `SourceFile::next`: `o.unwrap_or(0)` maps a read error to byte
0 without touching `empty`; iterator exhaustion sets `empty`. -/
def FileCursor.next (c : FileCursor) : Nat × FileCursor :=
  match c.bytes with
  | [] => (0, { c with last := 0, empty := true })
  | .ok b :: rest => (b, { c with bytes := rest, last := b })
  | .ioFailure :: rest => (0, { c with bytes := rest, last := 0 })

/-- Mirrors `SourceFile::peek`: a pending read error or iterator
exhaustion returns 0 and sets `empty`; otherwise the upcoming byte is
returned with no state change. -/
def FileCursor.peek (c : FileCursor) : Nat × FileCursor :=
  match c.bytes with
  | [] => (0, { c with empty := true })
  | .ok b :: _ => (b, c)
  | .ioFailure :: _ => (0, { c with empty := true })

/-- C3: counterexample.  The claim says `peek` never changes the exhausted
flag for either cursor implementation; in fact both implementations set
`empty := true` when `peek` is called at end of input: starting from the
freshly-constructed state over an empty source (`empty = false`), one
`peek` flips the flag to `true`. -/
theorem c3_counterexample :
    (Cursor.peek { bytes := [], last := 0, empty := false }).2.empty = true ∧
    (FileCursor.peek { bytes := [], last := 0, empty := false }).2.empty = true ∧
    ({ bytes := [], last := 0, empty := false : Cursor }).empty = false := by
  exact ⟨rfl, rfl, rfl⟩

/-- C3 (amended): for both cursor implementations `peek` never changes the
current byte or the remaining input (it never advances), and when input
remains (for the file cursor: a successfully read byte is pending) it
changes nothing at all; but peeking at end of input — or, for the file
cursor, at a pending read error — returns the sentinel 0 and does set the
exhausted flag. -/
theorem c3_peek_effects :
    (∀ c : Cursor,
      (c.peek).2.last = c.last ∧ (c.peek).2.bytes = c.bytes ∧
      (c.bytes ≠ [] → (c.peek).2 = c) ∧
      (c.bytes = [] → (c.peek).1 = 0 ∧ (c.peek).2.empty = true)) ∧
    (∀ c : FileCursor,
      (c.peek).2.last = c.last ∧ (c.peek).2.bytes = c.bytes ∧
      (∀ b rest, c.bytes = ByteResult.ok b :: rest → (c.peek).2 = c) ∧
      (c.bytes = [] → (c.peek).1 = 0 ∧ (c.peek).2.empty = true) ∧
      (∀ rest, c.bytes = ByteResult.ioFailure :: rest →
        (c.peek).1 = 0 ∧ (c.peek).2.empty = true)) := by
  constructor
  · intro c
    match hc : c.bytes with
    | [] =>
      refine ⟨?_, ?_, fun h => absurd rfl h, fun _ => ⟨?_, ?_⟩⟩ <;>
        simp [Cursor.peek, hc]
    | b :: rest =>
      refine ⟨?_, ?_, fun _ => ?_, fun h => by simp [hc] at h⟩ <;>
        simp [Cursor.peek, hc]
  · intro c
    match hc : c.bytes with
    | [] =>
      refine ⟨?_, ?_, ?_, fun _ => ⟨?_, ?_⟩, ?_⟩ <;>
        simp [FileCursor.peek, hc]
    | ByteResult.ok b :: rest =>
      refine ⟨?_, ?_, ?_, ?_, ?_⟩ <;> simp [FileCursor.peek, hc]
    | ByteResult.ioFailure :: rest =>
      refine ⟨?_, ?_, ?_, ?_, ?_⟩ <;> simp [FileCursor.peek, hc]

/-- C3 witness: the amended peek description at concrete cursors. -/
theorem c3_peek_effects_witness :
    (Cursor.peek { bytes := [7], last := 3, empty := false }).2 =
      { bytes := [7], last := 3, empty := false } ∧
    (FileCursor.peek { bytes := [], last := 3, empty := false }).1 = 0 := by
  refine ⟨(c3_peek_effects.1 { bytes := [7], last := 3, empty := false }).2.2.1 (by decide),
          ((c3_peek_effects.2 { bytes := [], last := 3, empty := false }).2.2.2.1 rfl).1⟩

/-- Mirrors `fn is_name_start` (`A-Z`, `_`, `a-z`). -/
def is_name_start (c : Nat) : Bool :=
  (65 ≤ c && c ≤ 90) || c == 95 || (97 ≤ c && c ≤ 122)

/-- Mirrors `fn is_decimal` (`0-9`). -/
def is_decimal (c : Nat) : Bool := 48 ≤ c && c ≤ 57

/-- Mirrors `fn is_name_part`. -/
def is_name_part (c : Nat) : Bool := is_name_start c || is_decimal c

/-- Mirrors `fn is_binary` (`0` or `1`). -/
def is_binary (c : Nat) : Bool := c == 48 || c == 49

/-- Mirrors `fn is_hex` (`a-f`, `A-F`, or decimal). -/
def is_hex (c : Nat) : Bool :=
  (97 ≤ c && c ≤ 102) || (65 ≤ c && c ≤ 70) || is_decimal c

/-- Mirrors `fn is_newline` (`\r` or `\n`). -/
def is_newline (c : Nat) : Bool := c == 13 || c == 10

/-- Mirrors `fn is_whitespace` (tab, vertical tab, space). -/
def is_whitespace (c : Nat) : Bool := c == 9 || c == 11 || c == 32

/-- Mirrors `fn is_operator` (`! % & * + - / < = > ^ | ~`). -/
def is_operator (c : Nat) : Bool :=
  c == 33 || c == 37 || c == 38 || c == 42 || c == 43 || c == 45 ||
  c == 47 || c == 60 || c == 61 || c == 62 || c == 94 || c == 124 || c == 126

/-- The instruction keyword set of `fn is_instruction`, as ASCII byte
lists (cp di ei jp jr or rl rr ld adc add and bit ccf cpl daa dec inc ldh
nop pop res ret rla rlc rra rrc rst sbc scf set sla sra srl sub xor halt
push call reti ldhl rlca rrca stop swap). -/
def instruction_names : List (List Nat) :=
  [[99,112], [100,105], [101,105], [106,112], [106,114], [111,114],
   [114,108], [114,114], [108,100],
   [97,100,99], [97,100,100], [97,110,100], [98,105,116], [99,99,102],
   [99,112,108], [100,97,97], [100,101,99], [105,110,99], [108,100,104],
   [110,111,112], [112,111,112], [114,101,115], [114,101,116],
   [114,108,97], [114,108,99], [114,114,97], [114,114,99], [114,115,116],
   [115,98,99], [115,99,102], [115,101,116], [115,108,97], [115,114,97],
   [115,114,108], [115,117,98], [120,111,114],
   [104,97,108,116], [112,117,115,104], [99,97,108,108], [114,101,116,105],
   [108,100,104,108], [114,108,99,97], [114,114,99,97], [115,116,111,112],
   [115,119,97,112]]

/-- Mirrors `fn is_instruction`. -/
def is_instruction (name : List Nat) : Bool := instruction_names.contains name

/-- The directive keyword set of `fn is_directive`, as ASCII byte lists
(DB DW DS EQU EQUS BANK INCBIN SECTION INCLUDE). -/
def directive_names : List (List Nat) :=
  [[68,66], [68,87], [68,83], [69,81,85], [69,81,85,83], [66,65,78,75],
   [73,78,67,66,73,78], [83,69,67,84,73,79,78], [73,78,67,76,85,68,69]]

/-- Mirrors `fn is_directive`. -/
def is_directive (name : List Nat) : Bool := directive_names.contains name

/-- The bytes of the keyword `MACRO`. -/
def macro_kw : List Nat := [77,65,67,82,79]

/-- The bytes of the keyword `ENDMACRO`. -/
def endmacro_kw : List Nat := [69,78,68,77,65,67,82,79]

/-- A UTF-8 continuation byte (`0x80`-`0xBF`). -/
def is_cont (b : Nat) : Bool := 128 ≤ b && b ≤ 191

/-- Modelled from the documented behaviour of Rust's
`String::from_utf8` validity check (the code of `core::str` is outside
this repository): well-formed UTF-8, rejecting overlong encodings,
surrogate code points and values above `U+10FFFF`. -/
def valid_utf8 : List Nat → Bool
  | [] => true
  | b :: rest =>
    if b ≤ 127 then valid_utf8 rest
    else if 194 ≤ b && b ≤ 223 then
      match rest with
      | b1 :: rest2 => is_cont b1 && valid_utf8 rest2
      | [] => false
    else if b == 224 then
      match rest with
      | b1 :: b2 :: rest2 =>
        (160 ≤ b1 && b1 ≤ 191) && is_cont b2 && valid_utf8 rest2
      | _ => false
    else if (225 ≤ b && b ≤ 236) || b == 238 || b == 239 then
      match rest with
      | b1 :: b2 :: rest2 => is_cont b1 && is_cont b2 && valid_utf8 rest2
      | _ => false
    else if b == 237 then
      match rest with
      | b1 :: b2 :: rest2 =>
        (128 ≤ b1 && b1 ≤ 159) && is_cont b2 && valid_utf8 rest2
      | _ => false
    else if b == 240 then
      match rest with
      | b1 :: b2 :: b3 :: rest2 =>
        (144 ≤ b1 && b1 ≤ 191) && is_cont b2 && is_cont b3 && valid_utf8 rest2
      | _ => false
    else if 241 ≤ b && b ≤ 243 then
      match rest with
      | b1 :: b2 :: b3 :: rest2 =>
        is_cont b1 && is_cont b2 && is_cont b3 && valid_utf8 rest2
      | _ => false
    else if b == 244 then
      match rest with
      | b1 :: b2 :: b3 :: rest2 =>
        (128 ≤ b1 && b1 ≤ 143) && is_cont b2 && is_cont b3 && valid_utf8 rest2
      | _ => false
    else false

/-- Mirrors `fn string_from_bytes`: a failed UTF-8 decode yields the empty
string. -/
def string_from_bytes (bytes : List Nat) : List Nat :=
  if valid_utf8 bytes then bytes else []

/-- Mirrors `fn to_number`: positional sum of the digit values in the
given radix (including the defensive `None => 0` for an out-of-range
index).  The source accumulates in an `i32`; the call sites keep at most
8 decimal, 8 binary or 4 hex digits, far below overflow, so `Nat`
arithmetic is exact here. -/
def to_number (bytes : List Nat) (radix : Nat) : Nat :=
  (List.range bytes.length).foldl
    (fun num i =>
      num + match bytes.get? i with
            | some v => radix ^ (bytes.length - i - 1) * v
            | none => 0)
    0

/-- The `while` loop of `fn parse_comment`. -/
def parse_comment_loop : Nat → Cursor → List Nat → Option (List Nat × Cursor)
  | 0, _, _ => none
  | fuel+1, cur, bytes =>
    if !cur.is_empty && !is_newline cur.get then
      parse_comment_loop fuel (cur.next).2 (bytes ++ [cur.get])
    else
      some (bytes, cur)

/-- Mirrors `fn parse_comment`. -/
def parse_comment (cur : Cursor) : Token × Cursor :=
  let cur := (cur.next).2
  match parse_comment_loop (cur.bytes.length + 2) cur [] with
  | some (bytes, cur) => (Token.Comment (string_from_bytes bytes), cur)
  | none => (Token.Error ErrorMsg.OutOfFuel, cur)

/-- The `while` loop of `fn parse_whitespace`. -/
def parse_whitespace_loop : Nat → Cursor → Cursor
  | 0, cur => cur
  | fuel+1, cur =>
    if !cur.is_empty && is_whitespace cur.get then
      parse_whitespace_loop fuel (cur.next).2
    else
      cur

/-- Mirrors `fn parse_whitespace`. -/
def parse_whitespace (cur : Cursor) : Token × Cursor :=
  (Token.Whitespace, parse_whitespace_loop (cur.bytes.length + 2) cur)

/-- The escape-sequence table inside `fn parse_string`: byte after the
backslash to decoded byte; `none` is the `c => return Token::Error(...)`
arm. -/
def escape_byte (c : Nat) : Option Nat :=
  if c == 48 then some 0        -- \0
  else if c == 98 then some 7   -- \b
  else if c == 116 then some 9  -- \t
  else if c == 110 then some 10 -- \n
  else if c == 118 then some 11 -- \v
  else if c == 114 then some 13 -- \r
  else if c == 34 then some 34  -- \"
  else if c == 39 then some 39  -- \'
  else if c == 92 then some 92  -- backslash
  else none

/-- The `while` loop of `fn parse_string`, plus the unclosed-delimiter and
UTF-8 checks that follow it. -/
def parse_string_loop : Nat → Nat → List Nat → Nat → Cursor → Option (Token × Cursor)
  | 0, _, _, _, _ => none
  | fuel+1, delim, bytes, ch, cur =>
    if ch != delim && !cur.is_empty then
      if ch == 92 then
        let c2 := (cur.next).1
        let cur := (cur.next).2
        match escape_byte c2 with
        | some b =>
          parse_string_loop fuel delim (bytes ++ [b]) (cur.next).1 (cur.next).2
        | none => some (Token.Error (ErrorMsg.UnknownEscape c2), cur)
      else
        parse_string_loop fuel delim (bytes ++ [ch]) (cur.next).1 (cur.next).2
    else
      if ch != delim then
        some (Token.Error ErrorMsg.UnclosedString, cur)
      else
        if valid_utf8 bytes then some (Token.String bytes, (cur.next).2)
        else some (Token.Error ErrorMsg.InvalidStringContents, (cur.next).2)

/-- Mirrors `fn parse_string`. -/
def parse_string (cur : Cursor) : Token × Cursor :=
  let delim := cur.get
  let ch := (cur.next).1
  let cur := (cur.next).2
  match parse_string_loop (cur.bytes.length + 2) delim [] ch cur with
  | some r => r
  | none => (Token.Error ErrorMsg.OutOfFuel, cur)

/-- The operator recognised by `fn parse_operator` for a
(current, lookahead) byte pair: the ten two-character arms in source
order, then the twelve single-character arms, `none` for the invalid
fall-through. -/
def operator_lookup (ch nextByte : Nat) : Option Operator :=
  if ch == 61 && nextByte == 61 then some Operator.Equal
  else if ch == 62 && nextByte == 62 then some Operator.ShiftRight
  else if ch == 60 && nextByte == 60 then some Operator.ShiftLeft
  else if ch == 38 && nextByte == 38 then some Operator.LogicalAnd
  else if ch == 124 && nextByte == 124 then some Operator.LogicalOr
  else if ch == 33 && nextByte == 61 then some Operator.NotEqual
  else if ch == 62 && nextByte == 61 then some Operator.GreaterThanEqual
  else if ch == 60 && nextByte == 61 then some Operator.LessThanEqual
  else if ch == 47 && nextByte == 47 then some Operator.IntegerDivide
  else if ch == 42 && nextByte == 42 then some Operator.Power
  else if ch == 62 then some Operator.GreaterThan
  else if ch == 60 then some Operator.LessThan
  else if ch == 33 then some Operator.UnaryNot
  else if ch == 43 then some Operator.Plus
  else if ch == 45 then some Operator.Minus
  else if ch == 42 then some Operator.Multiply
  else if ch == 47 then some Operator.Divide
  else if ch == 37 then some Operator.Modulo
  else if ch == 38 then some Operator.BitwiseAnd
  else if ch == 124 then some Operator.BitwiseOr
  else if ch == 126 then some Operator.Negate
  else if ch == 94 then some Operator.BitwiseXor
  else none

/-- Whether one of the ten two-character arms of `fn parse_operator`
matches (those arms advance the cursor a second time). -/
def operator_is_double (ch nextByte : Nat) : Bool :=
  (ch == 61 && nextByte == 61) || (ch == 62 && nextByte == 62) ||
  (ch == 60 && nextByte == 60) || (ch == 38 && nextByte == 38) ||
  (ch == 124 && nextByte == 124) || (ch == 33 && nextByte == 61) ||
  (ch == 62 && nextByte == 61) || (ch == 60 && nextByte == 61) ||
  (ch == 47 && nextByte == 47) || (ch == 42 && nextByte == 42)

/-- Mirrors `fn parse_operator`: advance once, recognise the operator via
the arm table, advancing a second time exactly for the two-character
arms.  (The token and the cursor advancement are factored into the two
helpers above; the conditions are the source arms verbatim, in order.) -/
def parse_operator (ch nextByte : Nat) (cur : Cursor) : Token × Cursor :=
  let cur := (cur.next).2
  let cur := if operator_is_double ch nextByte then (cur.next).2 else cur
  match operator_lookup ch nextByte with
  | some op => (Token.Operator op, cur)
  | none => (Token.Error (ErrorMsg.InvalidOperator ch), cur)

/-- The `while` loop of `fn parse_decimal_part`: accumulate decimal digit
values, skip interleaved underscores, break once 8 digits are held. -/
def parse_decimal_part_loop : Nat → Nat → List Nat → Cursor → Option (Nat × List Nat × Cursor)
  | 0, _, _, _ => none
  | fuel+1, digit, bytes, cur =>
    if is_decimal digit then
      let bytes := bytes ++ [digit - 48]
      let digit := (cur.next).1
      let cur := (cur.next).2
      if digit == 95 then
        parse_decimal_part_loop fuel (cur.next).1 bytes (cur.next).2
      else if bytes.length == 8 then
        some (digit, bytes, cur)
      else
        parse_decimal_part_loop fuel digit bytes cur
    else
      some (digit, bytes, cur)

/-- Mirrors `fn parse_decimal_part`: returns the terminating byte, the
accumulated value and the number of digits. -/
def parse_decimal_part (cur : Cursor) : Nat × Nat × Nat × Cursor :=
  match parse_decimal_part_loop (cur.bytes.length + 2) cur.get [] cur with
  | some (digit, bytes, cur) => (digit, to_number bytes 10, bytes.length, cur)
  | none => (0, 0, 0, cur)

/-- Mirrors `fn parse_decimal`: an integer part of exactly 8 digits is an
error; a `.` terminator parses a fractional part and the value is
`integer + fraction / 10 ^ fraction_digits`; the sign comes from the
leading-minus context. -/
def parse_decimal (cur : Cursor) (is_negative : Bool) : Token × Cursor :=
  let p := parse_decimal_part cur
  let digit := p.1
  let number := p.2.1
  let len := p.2.2.1
  let cur := p.2.2.2
  if len == 8 then
    (Token.Error ErrorMsg.DecimalTooLong, cur)
  else if digit == 46 then
    let part := parse_decimal_part (cur.next).2
    let float := (NumVal.ofNat number).add
      ((NumVal.ofNat part.2.1).div (NumVal.ofNat (10 ^ part.2.2.1)))
    (Token.Number (if is_negative then float.neg else float), part.2.2.2)
  else
    let number := NumVal.ofNat number
    (Token.Number (if is_negative then number.neg else number), cur)

/-- The `while` loop of `fn parse_binary` together with its in-loop
9-digit error return and the final conversion. -/
def parse_binary_loop : Nat → Nat → List Nat → Cursor → Option (Token × Cursor)
  | 0, _, _, _ => none
  | fuel+1, digit, bytes, cur =>
    if is_binary digit then
      let bytes := bytes ++ [digit - 48]
      let digit := (cur.next).1
      let cur := (cur.next).2
      if digit == 95 then
        parse_binary_loop fuel (cur.next).1 bytes (cur.next).2
      else if bytes.length == 9 then
        some (Token.Error ErrorMsg.BinaryTooLong, cur)
      else
        parse_binary_loop fuel digit bytes cur
    else
      some (Token.Number (NumVal.ofNat (to_number bytes 2)), cur)

/-- Mirrors `fn parse_binary`. -/
def parse_binary (cur : Cursor) : Token × Cursor :=
  match parse_binary_loop (cur.bytes.length + 2) cur.get [] cur with
  | some r => r
  | none => (Token.Error ErrorMsg.OutOfFuel, cur)

/-- The `while` loop of `fn parse_hex` with its digit-value adjustment,
the in-loop 5-digit error return and the final conversion. -/
def parse_hex_loop : Nat → Nat → List Nat → Cursor → Option (Token × Cursor)
  | 0, _, _, _ => none
  | fuel+1, digit, bytes, cur =>
    if is_hex digit then
      let d := if 97 ≤ digit then digit - 87
               else if 65 ≤ digit then digit - 55
               else digit - 48
      let bytes := bytes ++ [d]
      let digit := (cur.next).1
      let cur := (cur.next).2
      if digit == 95 then
        parse_hex_loop fuel (cur.next).1 bytes (cur.next).2
      else if bytes.length == 5 then
        some (Token.Error ErrorMsg.HexTooLong, cur)
      else
        parse_hex_loop fuel digit bytes cur
    else
      some (Token.Number (NumVal.ofNat (to_number bytes 16)), cur)

/-- Mirrors `fn parse_hex`. -/
def parse_hex (cur : Cursor) : Token × Cursor :=
  match parse_hex_loop (cur.bytes.length + 2) cur.get [] cur with
  | some r => r
  | none => (Token.Error ErrorMsg.OutOfFuel, cur)

/-- The name-accumulation `while` loop shared by `fn parse_name`,
`fn parse_local_label` and the macro-argument branch of
`fn parse_offset_or_macro_arg`. -/
def parse_name_loop : Nat → List Nat → Nat → Cursor → Option (List Nat × Nat × Cursor)
  | 0, _, _, _ => none
  | fuel+1, bytes, ch, cur =>
    if is_name_part ch then
      parse_name_loop fuel (bytes ++ [ch]) (cur.next).1 (cur.next).2
    else
      some (bytes, ch, cur)

/-- Mirrors `fn parse_name`: accumulate a name, then reclassify it as an
instruction, directive, `MACRO`, `ENDMACRO`, global label definition (a
following `:` is consumed) or plain name. -/
def parse_name (cur : Cursor) : Token × Cursor :=
  match parse_name_loop (cur.bytes.length + 2) [] cur.get cur with
  | none => (Token.Error ErrorMsg.OutOfFuel, cur)
  | some (bytes, ch, cur) =>
    let name := string_from_bytes bytes
    if is_instruction name then (Token.Instruction name, cur)
    else if is_directive name then (Token.Directive name, cur)
    else if name == macro_kw then (Token.MacroDef, cur)
    else if name == endmacro_kw then (Token.MacroEnd, cur)
    else if name != [] then
      if ch == 58 then
        (Token.GlobalLabelDef name, (cur.next).2)
      else
        (Token.Name name, cur)
    else
      (Token.Error ErrorMsg.UnexpectedEmptyName, cur)

/-- Mirrors `fn parse_local_label`: the leading `.` is kept in the name; a
trailing `:` (consumed) makes it a definition, else a reference. -/
def parse_local_label (cur : Cursor) : Token × Cursor :=
  let b0 := cur.get
  let ch := (cur.next).1
  let cur := (cur.next).2
  match parse_name_loop (cur.bytes.length + 2) [b0] ch cur with
  | none => (Token.Error ErrorMsg.OutOfFuel, cur)
  | some (bytes, ch, cur) =>
    if ch == 58 then
      (Token.LocalLabelDef (string_from_bytes bytes), (cur.next).2)
    else
      (Token.LocalLabelRef (string_from_bytes bytes), cur)

/-- Mirrors `fn parse_offset_or_macro_arg`: `@-` and `@+` become the raw
offset markers, `@name` a macro argument, anything else an error. -/
def parse_offset_or_macro_arg (cur : Cursor) : Token × Cursor :=
  let sign := (cur.next).1
  let cur := (cur.next).2
  if sign == 45 then (Token.NegativeOffset, (cur.next).2)
  else if sign == 43 then (Token.PositiveOffset, (cur.next).2)
  else if is_name_start sign then
    let ch := (cur.next).1
    let cur := (cur.next).2
    match parse_name_loop (cur.bytes.length + 2) [sign] ch cur with
    | none => (Token.Error ErrorMsg.OutOfFuel, cur)
    | some (bytes, _, cur) => (Token.MacroArg (string_from_bytes bytes), cur)
  else
    (Token.Error (ErrorMsg.UnexpectedOffsetSign sign), cur)

/-- Mirrors `fn next_raw_token` of `src/parser/base_lexer.rs` (and the
identical private copy in `src/parser/lexer.rs`): the lookahead `peek`
happens unconditionally first, then the dispatch on the current byte in
source arm order.  The unknown-symbol arm does not advance the cursor,
exactly as in the source. -/
def next_raw_token (cur : Cursor) : Token × Cursor :=
  let ch := cur.get
  let nextByte := (cur.peek).1
  let cur := (cur.peek).2
  if is_newline ch then (Token.Newline, (cur.next).2)
  else if ch == 59 then parse_comment cur
  else if ch == 40 then (Token.LParen, (cur.next).2)
  else if ch == 41 then (Token.RParen, (cur.next).2)
  else if ch == 91 then (Token.LBrace, (cur.next).2)
  else if ch == 93 then (Token.RBrace, (cur.next).2)
  else if ch == 44 then (Token.Comma, (cur.next).2)
  else if ch == 34 || ch == 39 then parse_string cur
  else if ch == 64 then parse_offset_or_macro_arg cur
  else if ch == 45 && is_decimal nextByte then parse_decimal (cur.next).2 true
  else if ch == 37 && is_binary nextByte then parse_binary (cur.next).2
  else if ch == 36 && is_hex nextByte then parse_hex (cur.next).2
  else if ch == 46 && is_name_start nextByte then parse_local_label cur
  else if is_whitespace ch then parse_whitespace cur
  else if is_name_start ch then parse_name cur
  else if is_decimal ch then parse_decimal cur false
  else if is_operator ch then parse_operator ch nextByte cur
  else if ch == 0 then (Token.Eof, cur)
  else (Token.Error (ErrorMsg.UnexpectedCharacter ch), cur)

/-- The filtering loop of `BaseLexer::next`: skip `Whitespace` and
`Comment` tokens, return the first other token. -/
def next_filtered_loop : Nat → Cursor → Token × Cursor
  | 0, cur => (Token.Error ErrorMsg.OutOfFuel, cur)
  | fuel+1, cur =>
    match next_raw_token cur with
    | (Token.Whitespace, cur) => next_filtered_loop fuel cur
    | (Token.Comment _, cur) => next_filtered_loop fuel cur
    | r => r

/-- Mirrors `BaseLexer::next` (always `Some`). -/
def next_filtered (cur : Cursor) : Token × Cursor :=
  next_filtered_loop (cur.bytes.length + 2) cur

/-- Collect the filtered token stream up to and including the first `Eof`. -/
def raw_tokens_loop : Nat → Cursor → List Token
  | 0, _ => []
  | fuel+1, cur =>
    match next_filtered cur with
    | (Token.Eof, _) => [Token.Eof]
    | (tok, cur) => tok :: raw_tokens_loop fuel cur

/-- The filtered token stream of a byte string: `BaseLexer::new` primes
the cursor with one `next`, then tokens are read until `Eof`. -/
def scan_tokens (input : List Nat) : List Token :=
  raw_tokens_loop (input.length + 2)
    (({ bytes := input, last := 0, empty := false } : Cursor).next).2

/-- Truncation of a numeric payload toward zero (the rounding mode of
Rust's `f32 as i32` cast for in-range values). -/
def num_trunc (q : NumVal) : Int :=
  if 0 ≤ q.num then ((q.num.natAbs / q.den : Nat) : Int)
  else -((q.num.natAbs / q.den : Nat) : Int)

/-- The `val as i32` cast of the offset arms of `Lexer::next`: truncate
toward zero and saturate to the `i32` range. -/
def as_i32 (q : NumVal) : Int :=
  max (-(2 ^ 31)) (min (2 ^ 31 - 1) (num_trunc q))

/-- Wrapping `i32` negation (`-(val as i32)` in the negative-offset arm;
two's-complement wrap-around on `i32::MIN`). -/
def i32_neg (n : Int) : Int :=
  ((-n + 2 ^ 31) % 2 ^ 32) - 2 ^ 31

/-- State of the token classifier `Lexer` of `src/parser/lexer.rs`, plus
ghost instrumentation that never influences behaviour: `underflowed`
records that the `paren_depth -= 1` for an `RParen` executed while the
wrapped `u8` depth was 0; `true_depth` shadows the depth as an unbounded
integer; `depth_fault` records that a committed paren token stepped the
true depth outside the `u8`-faithful discipline (an `RParen` at true
depth 0, or an `LParen` at true depth 255). -/
structure LexerState where
  in_macro_args : Bool
  in_macro_body : Bool
  paren_depth : Nat
  last_token_type : TokenType
  underflowed : Bool
  true_depth : Int
  depth_fault : Bool
  deriving DecidableEq, Repr

/-- Mirrors `Lexer::new`. -/
def lexer_init : LexerState :=
  { in_macro_args := false, in_macro_body := false, paren_depth := 0,
    last_token_type := TokenType.Begin, underflowed := false,
    true_depth := 0, depth_fault := false }

/-- Mirrors `self.lexer.next().unwrap()`: the underlying filtered iterator
never ends (it repeats `Eof`), so an exhausted token list yields `Eof`. -/
def next_tok : List Token → Token × List Token
  | [] => (Token.Eof, [])
  | t :: rest => (t, rest)

/-- The paren-depth update performed at the top of the expression
collection loop of `Lexer::next` for a committed token, `u8` arithmetic
wrapped mod 256, with the ghost fields updated alongside. -/
def depth_update (st : LexerState) (token_type : TokenType) : LexerState :=
  match token_type with
  | TokenType.LParen =>
    { st with paren_depth := (st.paren_depth + 1) % 256,
              true_depth := st.true_depth + 1,
              depth_fault := st.depth_fault || decide (255 ≤ st.true_depth) }
  | TokenType.RParen =>
    { st with underflowed := st.underflowed || st.paren_depth == 0,
              paren_depth := (st.paren_depth + 255) % 256,
              true_depth := st.true_depth - 1,
              depth_fault := st.depth_fault || decide (st.true_depth ≤ 0) }
  | _ => st

/-- The expression collection loop of `Lexer::next` (lines 118-144):
starting from the already committed first token of the run (whose type is
`token_type`), repeatedly update the paren depth, remember the last type,
peek the next token's type and commit it while `is_expression` allows.
Returns the tokens committed after the first one, the resulting state and
the uncommitted remainder. -/
def collect_loop (st : LexerState) (token_type : TokenType) :
    List Token → List Token × LexerState × List Token
  | [] =>
    -- the peeked type is Eof here and is_expression never continues into
    -- Eof, so the loop stops either way
    let st := depth_update st token_type
    ([], { st with last_token_type := token_type }, [])
  | t :: rest =>
    let st := depth_update st token_type
    let st := { st with last_token_type := token_type }
    if is_expression st.last_token_type t.to_type st.paren_depth then
      let r := collect_loop st t.to_type rest
      (t :: r.1, r.2.1, r.2.2)
    else
      ([], st, t :: rest)

/-- One step of the classifier `Lexer::next` (without the trailing
`last_token_type` update, which the stream loop performs on the emitted
token): offset fusion, macro-argument and macro-header rules, the
macro-argument-list passthrough, and expression collapsing.  `none`
models a panic inside `Expression::new`. -/
def lexer_next (st : LexerState) (toks : List Token) :
    Option (Token × LexerState × List Token) :=
  let (token, toks) := next_tok toks
  match token with
  | Token.PositiveOffset =>
    let (t2, toks) := next_tok toks
    match t2 with
    | Token.Number val => some (Token.Offset (as_i32 val), st, toks)
    | _ => some (Token.Error ErrorMsg.ExpectedNumberAfterOffset, st, toks)
  | Token.NegativeOffset =>
    let (t2, toks) := next_tok toks
    match t2 with
    | Token.Number val => some (Token.Offset (i32_neg (as_i32 val)), st, toks)
    | _ => some (Token.Error ErrorMsg.ExpectedNumberAfterOffset, st, toks)
  | Token.MacroArg name =>
    if !st.in_macro_args && !st.in_macro_body then
      some (Token.Error (ErrorMsg.MacroArgOutside name), st, toks)
    else
      some (Token.MacroArg name, st, toks)
  | Token.MacroDef =>
    let (t2, toks) := next_tok toks
    match t2 with
    | Token.Name name =>
      if st.in_macro_args then
        some (Token.Error ErrorMsg.AlreadyInMacroArgs, st, toks)
      else
        some (Token.Macro name, { st with in_macro_args := true }, toks)
    | _ => some (Token.Error ErrorMsg.ExpectedNameAfterMacro, st, toks)
  | Token.MacroEnd =>
    if !st.in_macro_body then
      some (Token.Error ErrorMsg.MacroEndOutside, st, toks)
    else
      some (Token.MacroEnd, { st with in_macro_body := false }, toks)
  | token =>
    if st.in_macro_args then
      let st := if token.to_type == TokenType.RParen then
                  { st with in_macro_args := false, in_macro_body := true }
                else st
      some (token, st, toks)
    else
      let tt := token.to_type
      if is_expression st.last_token_type tt st.paren_depth then
        let r := collect_loop st tt toks
        match expression_new (Token.LParen :: token :: (r.1 ++ [Token.RParen])) with
        | none => none
        | some e => some (Token.Expression e, r.2.1, r.2.2)
      else
        some (token, st, toks)

/-- The classified token stream up to and including the first emitted
`Eof`, together with the final classifier state; after each emitted token
`last_token_type` is set to the emitted token's type (line 159 of
`src/parser/lexer.rs`).  `none` is a panic (or, for fuel 0, fuel
exhaustion — unreachable for the fuel `lexer_run` passes). -/
def lexer_run_loop : Nat → LexerState → List Token → Option (List Token × LexerState)
  | 0, _, _ => none
  | fuel+1, st, toks =>
    match lexer_next st toks with
    | none => none
    | some (tok, st', rest) =>
      let st'' := { st' with last_token_type := tok.to_type }
      if tok.to_type == TokenType.Eof then
        some ([tok], st'')
      else
        match lexer_run_loop fuel st'' rest with
        | none => none
        | some (out, stf) => some (tok :: out, stf)

/-- Run the classifier over a raw token list from the initial state. -/
def lexer_run (toks : List Token) : Option (List Token × LexerState) :=
  lexer_run_loop (toks.length + 2) lexer_init toks

/-- The whole front end on a byte string: scan, then classify. -/
def pipeline (input : List Nat) : Option (List Token) :=
  (lexer_run (scan_tokens input)).map Prod.fst

/-- The bytes of the input `DB $FF, %10101010, -3.5`. -/
def c1_input : List Nat :=
  [68,66,32,36,70,70,44,32,37,49,48,49,48,49,48,49,48,44,32,45,51,46,53]

/-- C1: counterexample.  The claim says the classified stream of
`DB $FF, %10101010, -3.5` is `Directive, Expression, Expression,
Expression, Eof` with no `Comma` or bare `Number` tokens; the pipeline
actually emits a seven-token stream whose shape is `Directive,
Expression, Comma, Number, Comma, Number, Eof` — the commas survive and
the values after them stay bare `Number` tokens. -/
theorem c1_counterexample :
    (pipeline c1_input).map (fun l => l.map Token.to_type) =
      some [TokenType.Directive, TokenType.Expression, TokenType.Comma,
            TokenType.Number, TokenType.Comma, TokenType.Number,
            TokenType.Eof] := by
  decide

/-- C1 (amended): the classified stream of `DB $FF, %10101010, -3.5` is
`Directive("DB")`, `Expression(Number(255))`, `Comma`, `Number(170)`,
`Comma`, `Number(-3.5)`, `Eof`.  Only the value right after the directive
is collapsed into an `Expression`: a comma at depth 0 terminates the run,
and because `is_expression` is false whenever the previous token is a
`Comma` at depth 0, the later values never start a new run, so the commas
and bare numbers are emitted unchanged. -/
theorem c1_actual_stream :
    pipeline c1_input =
      some [Token.Directive [68,66],
            Token.Expression (Expression.Number (NumVal.ofNat 255)),
            Token.Comma, Token.Number (NumVal.ofNat 170), Token.Comma,
            Token.Number ⟨-35, 10⟩, Token.Eof] := by
  decide

/-- C5: the claim says the decimal accumulator saturates at 8 digits and
errors only when a ninth digit arrives, so an 8-digit literal scans to a
`Number`.  The code's `parse_decimal` instead errors on exactly 8 digits
(`if len == 8`): scanning `12345678` yields the too-long error while
`1234567` scans fine — even though the emitted message says the literal
"exceeds maximum length of 8 digits", and even though the binary scanner
(`%11111111` below) does accept 8 digits and errors only on a ninth.  The
claim matches the evident intent; the 8-digit cutoff is the slip. -/
theorem c5_eight_digit_decimal_is_error :
    scan_tokens [49,50,51,52,53,54,55,56] =
      [Token.Error ErrorMsg.DecimalTooLong, Token.Eof] ∧
    scan_tokens [49,50,51,52,53,54,55] =
      [Token.Number (NumVal.ofNat 1234567), Token.Eof] ∧
    scan_tokens [37,49,49,49,49,49,49,49,49] =
      [Token.Number (NumVal.ofNat 255), Token.Eof] := by
  refine ⟨by decide, by decide, by decide⟩

/-- The raw token stream of `ld` followed by 256 nested `(`, a name, 256
`)` and end of input. -/
def c6_input : List Token :=
  Token.Instruction [108,100] ::
    (List.replicate 256 Token.LParen ++ [Token.Name [97]] ++
     List.replicate 256 Token.RParen ++ [Token.Eof])

set_option maxRecDepth 4000 in
/-- C6: counterexample.  On the 256-deep nesting input the classifier's
`u8` depth counter wraps to 0 at the 256th committed `LParen`, so the
first committed `RParen` executes `paren_depth -= 1` at wrapped depth 0 —
an underflow — yet the stream still reaches `Eof` (the buffer is balanced,
so `Expression::new` succeeds).  The input is well formed in any sense the
claim could intend: its parentheses are balanced and its classified stream
reaches `Eof`. -/
theorem c6_counterexample :
    (lexer_run c6_input).map (fun r => (r.1, r.2.underflowed)) =
      some ([Token.Instruction [108,100],
             Token.Expression (Expression.Name [97]), Token.Eof], true) := by
  decide

/-- C7: counterexample.  For the input `ld (2, 3)` the classifier hands
the expression builder the buffer `( ( 2 , 3 ) )` (the collected run
pre-wrapped in parentheses), and `Expression::new` ends with two values
`[3, 2]` on the value stack, so its `values.len() == 1` assertion fails —
modelled by `expression_new` returning `none` and the whole classified
run panicking (`lexer_run = none`). -/
theorem c7_counterexample :
    expression_new [Token.LParen, Token.LParen, Token.Number (NumVal.ofNat 2),
                    Token.Comma, Token.Number (NumVal.ofNat 3), Token.RParen,
                    Token.RParen] = none ∧
    (collect_loop { lexer_init with last_token_type := TokenType.Instruction }
        TokenType.LParen
        [Token.Number (NumVal.ofNat 2), Token.Comma, Token.Number (NumVal.ofNat 3),
         Token.RParen, Token.Eof]).1 =
      [Token.Number (NumVal.ofNat 2), Token.Comma, Token.Number (NumVal.ofNat 3),
       Token.RParen] ∧
    lexer_run [Token.Instruction [108,100], Token.LParen,
               Token.Number (NumVal.ofNat 2), Token.Comma,
               Token.Number (NumVal.ofNat 3), Token.RParen, Token.Eof] = none := by
  refine ⟨by decide, by decide, by decide⟩

/-- C10: when an offset marker is followed by a `Number` token the
classifier emits `Offset` with the `val as i32` cast of the payload:
truncation toward zero (saturating at the `i32` range, which the
truncation characterisation below makes explicit for in-range values),
and for `@-` the wrapping `i32` negation of that; end to end, `@+2.9`
classifies to `Offset(2)` and `@-2.9` to `Offset(-2)` — the fractional
part is silently discarded.  (The model's exact value 29/10 and the
`f32` nearest to 2.9 truncate to the same integer.) -/
theorem c10_offset_truncation :
    (∀ (st : LexerState) (q : NumVal) (rest : List Token),
      lexer_next st (Token.PositiveOffset :: Token.Number q :: rest) =
        some (Token.Offset (as_i32 q), st, rest)) ∧
    (∀ (st : LexerState) (q : NumVal) (rest : List Token),
      lexer_next st (Token.NegativeOffset :: Token.Number q :: rest) =
        some (Token.Offset (i32_neg (as_i32 q)), st, rest)) ∧
    (∀ q : NumVal, -(2 ^ 31) < num_trunc q → num_trunc q < 2 ^ 31 →
      as_i32 q = num_trunc q) ∧
    pipeline [64,43,50,46,57] = some [Token.Offset 2, Token.Eof] ∧
    pipeline [64,45,50,46,57] = some [Token.Offset (-2), Token.Eof] := by
  refine ⟨fun st q rest => rfl, fun st q rest => rfl, fun q h1 h2 => ?_,
          by decide, by decide⟩
  have hmin : min (2 ^ 31 - 1) (num_trunc q) = num_trunc q :=
    min_eq_right (by omega)
  unfold as_i32
  rw [hmin]
  exact max_eq_right (by omega)

/-- C10 witness: the truncation statements at the concrete payload 29/10. -/
theorem c10_offset_truncation_witness :
    lexer_next lexer_init [Token.PositiveOffset, Token.Number ⟨29, 10⟩] =
      some (Token.Offset (as_i32 ⟨29, 10⟩), lexer_init, []) ∧
    as_i32 ⟨29, 10⟩ = num_trunc ⟨29, 10⟩ :=
  ⟨c10_offset_truncation.1 lexer_init ⟨29, 10⟩ [],
   c10_offset_truncation.2.2.1 ⟨29, 10⟩ (by decide) (by decide)⟩



/-- `peek` never changes the current byte. -/
theorem cursor_peek_last (c : Cursor) : (c.peek).2.last = c.last := by
  unfold Cursor.peek
  match c.bytes with
  | [] => rfl
  | b :: rest => rfl

/-- The string-scanning loop never produces an `Eof` token. -/
theorem parse_string_loop_ne_eof :
    ∀ (fuel delim : Nat) (bytes : List Nat) (ch : Nat) (cur : Cursor) r,
      parse_string_loop fuel delim bytes ch cur = some r → r.1 ≠ Token.Eof := by
  intro fuel
  induction fuel with
  | zero => intro _ _ _ _ r h; simp [parse_string_loop] at h
  | succ fuel ih =>
    intro delim bytes ch cur r h
    rw [parse_string_loop] at h
    dsimp only at h
    split at h
    · split at h
      · split at h
        · exact ih _ _ _ _ _ h
        · simp only [Option.some.injEq] at h; subst h; simp
      · exact ih _ _ _ _ _ h
    · split at h
      · simp only [Option.some.injEq] at h; subst h; simp
      · split at h <;> (simp only [Option.some.injEq] at h; subst h; simp)

/-- The binary-scanning loop never produces an `Eof` token. -/
theorem parse_binary_loop_ne_eof :
    ∀ (fuel digit : Nat) (bytes : List Nat) (cur : Cursor) r,
      parse_binary_loop fuel digit bytes cur = some r → r.1 ≠ Token.Eof := by
  intro fuel
  induction fuel with
  | zero => intro _ _ _ r h; simp [parse_binary_loop] at h
  | succ fuel ih =>
    intro digit bytes cur r h
    rw [parse_binary_loop] at h
    dsimp only at h
    split at h
    · split at h
      · exact ih _ _ _ _ h
      · split at h
        · simp only [Option.some.injEq] at h; subst h; simp
        · exact ih _ _ _ _ h
    · simp only [Option.some.injEq] at h; subst h; simp

/-- The hex-scanning loop never produces an `Eof` token. -/
theorem parse_hex_loop_ne_eof :
    ∀ (fuel digit : Nat) (bytes : List Nat) (cur : Cursor) r,
      parse_hex_loop fuel digit bytes cur = some r → r.1 ≠ Token.Eof := by
  intro fuel
  induction fuel with
  | zero => intro _ _ _ r h; simp [parse_hex_loop] at h
  | succ fuel ih =>
    intro digit bytes cur r h
    rw [parse_hex_loop] at h
    dsimp only at h
    repeat' split at h
    all_goals first
      | exact ih _ _ _ _ h
      | (simp only [Option.some.injEq] at h; subst h; simp)

/-- The comment token is never `Eof`. -/
theorem parse_comment_ne_eof (cur : Cursor) : (parse_comment cur).1 ≠ Token.Eof := by
  unfold parse_comment
  dsimp only
  repeat' split
  all_goals exact fun h => nomatch h

/-- The whitespace token is never `Eof`. -/
theorem parse_whitespace_ne_eof (cur : Cursor) : (parse_whitespace cur).1 ≠ Token.Eof := by
  exact fun h => nomatch h

/-- The string token is never `Eof`. -/
theorem parse_string_ne_eof (cur : Cursor) : (parse_string cur).1 ≠ Token.Eof := by
  unfold parse_string
  dsimp only
  split
  case _ r heq => exact parse_string_loop_ne_eof _ _ _ _ _ r heq
  case _ => exact fun h => nomatch h

/-- The operator token is never `Eof`. -/
theorem parse_operator_ne_eof (ch nextByte : Nat) (cur : Cursor) :
    (parse_operator ch nextByte cur).1 ≠ Token.Eof := by
  unfold parse_operator
  dsimp only
  split <;> exact fun h => nomatch h

/-- The decimal token is never `Eof`. -/
theorem parse_decimal_ne_eof (cur : Cursor) (neg : Bool) :
    (parse_decimal cur neg).1 ≠ Token.Eof := by
  unfold parse_decimal
  dsimp only
  repeat' split
  all_goals exact fun h => nomatch h

/-- The binary token is never `Eof`. -/
theorem parse_binary_ne_eof (cur : Cursor) : (parse_binary cur).1 ≠ Token.Eof := by
  unfold parse_binary
  split
  case _ r heq => exact parse_binary_loop_ne_eof _ _ _ _ r heq
  case _ => exact fun h => nomatch h

/-- The hex token is never `Eof`. -/
theorem parse_hex_ne_eof (cur : Cursor) : (parse_hex cur).1 ≠ Token.Eof := by
  unfold parse_hex
  split
  case _ r heq => exact parse_hex_loop_ne_eof _ _ _ _ r heq
  case _ => exact fun h => nomatch h

/-- The name token is never `Eof`. -/
theorem parse_name_ne_eof (cur : Cursor) : (parse_name cur).1 ≠ Token.Eof := by
  unfold parse_name
  repeat' split
  all_goals try dsimp only
  all_goals repeat' split
  all_goals exact fun h => nomatch h

/-- The local-label token is never `Eof`. -/
theorem parse_local_label_ne_eof (cur : Cursor) :
    (parse_local_label cur).1 ≠ Token.Eof := by
  unfold parse_local_label
  dsimp only
  repeat' split
  all_goals exact fun h => nomatch h

/-- The offset / macro-argument token is never `Eof`. -/
theorem parse_offset_or_macro_arg_ne_eof (cur : Cursor) :
    (parse_offset_or_macro_arg cur).1 ≠ Token.Eof := by
  unfold parse_offset_or_macro_arg
  dsimp only
  repeat' split
  all_goals exact fun h => nomatch h

/-- At the NUL sentinel, `next_raw_token` takes the `0 => Token::Eof` arm:
no other arm's guard admits byte 0, the cursor is not advanced, and only
the unconditional initial `peek` has touched the state. -/
theorem next_raw_token_at_nul (cur : Cursor) (h : cur.get = 0) :
    next_raw_token cur = (Token.Eof, (cur.peek).2) := by
  unfold next_raw_token
  dsimp only
  simp [h, is_newline, is_whitespace, is_name_start, is_decimal, is_operator]

/-- Away from the NUL sentinel, `next_raw_token` never yields `Eof`: every
other dispatch arm produces some other token kind. -/
theorem next_raw_token_ne_eof (cur : Cursor) (hc : cur.get ≠ 0) :
    (next_raw_token cur).1 ≠ Token.Eof := by
  unfold next_raw_token
  dsimp only
  by_cases h1 : is_newline cur.get = true
  · rw [if_pos h1]; exact fun h => nomatch h
  rw [if_neg h1]
  by_cases h2 : (cur.get == 59) = true
  · rw [if_pos h2]; exact parse_comment_ne_eof _
  rw [if_neg h2]
  by_cases h3 : (cur.get == 40) = true
  · rw [if_pos h3]; exact fun h => nomatch h
  rw [if_neg h3]
  by_cases h4 : (cur.get == 41) = true
  · rw [if_pos h4]; exact fun h => nomatch h
  rw [if_neg h4]
  by_cases h5 : (cur.get == 91) = true
  · rw [if_pos h5]; exact fun h => nomatch h
  rw [if_neg h5]
  by_cases h6 : (cur.get == 93) = true
  · rw [if_pos h6]; exact fun h => nomatch h
  rw [if_neg h6]
  by_cases h7 : (cur.get == 44) = true
  · rw [if_pos h7]; exact fun h => nomatch h
  rw [if_neg h7]
  by_cases h8 : (cur.get == 34 || cur.get == 39) = true
  · rw [if_pos h8]; exact parse_string_ne_eof _
  rw [if_neg h8]
  by_cases h9 : (cur.get == 64) = true
  · rw [if_pos h9]; exact parse_offset_or_macro_arg_ne_eof _
  rw [if_neg h9]
  by_cases h10 : (cur.get == 45 && is_decimal (cur.peek).1) = true
  · rw [if_pos h10]; exact parse_decimal_ne_eof _ _
  rw [if_neg h10]
  by_cases h11 : (cur.get == 37 && is_binary (cur.peek).1) = true
  · rw [if_pos h11]; exact parse_binary_ne_eof _
  rw [if_neg h11]
  by_cases h12 : (cur.get == 36 && is_hex (cur.peek).1) = true
  · rw [if_pos h12]; exact parse_hex_ne_eof _
  rw [if_neg h12]
  by_cases h13 : (cur.get == 46 && is_name_start (cur.peek).1) = true
  · rw [if_pos h13]; exact parse_local_label_ne_eof _
  rw [if_neg h13]
  by_cases h14 : is_whitespace cur.get = true
  · rw [if_pos h14]; exact parse_whitespace_ne_eof _
  rw [if_neg h14]
  by_cases h15 : is_name_start cur.get = true
  · rw [if_pos h15]; exact parse_name_ne_eof _
  rw [if_neg h15]
  by_cases h16 : is_decimal cur.get = true
  · rw [if_pos h16]; exact parse_decimal_ne_eof _ _
  rw [if_neg h16]
  by_cases h17 : is_operator cur.get = true
  · rw [if_pos h17]; exact parse_operator_ne_eof _ _ _
  rw [if_neg h17]
  rw [if_neg (show ¬((cur.get == 0) = true) from by simpa using hc)]
  exact fun h => nomatch h

/-- An emitted `Eof` token implies the current byte was the sentinel 0. -/
theorem next_raw_token_eof_imp (cur : Cursor) :
    (next_raw_token cur).1 = Token.Eof → cur.get = 0 := by
  by_cases hc : cur.get = 0
  · exact fun _ => hc
  · exact fun h => absurd h (next_raw_token_ne_eof cur hc)

/-- The n-th token of the raw token stream starting from a cursor state. -/
def raw_stream_nth (cur : Cursor) : Nat → Token
  | 0 => (next_raw_token cur).1
  | n+1 => raw_stream_nth (next_raw_token cur).2 n

/-- Once the current byte is 0 every raw-stream token is `Eof`. -/
theorem raw_stream_eof_stable :
    ∀ (n : Nat) (cur : Cursor), cur.get = 0 → raw_stream_nth cur n = Token.Eof := by
  intro n
  induction n with
  | zero =>
    intro cur h
    show (next_raw_token cur).1 = Token.Eof
    rw [next_raw_token_at_nul cur h]
  | succ n ih =>
    intro cur h
    show raw_stream_nth (next_raw_token cur).2 n = Token.Eof
    apply ih
    rw [next_raw_token_at_nul cur h]
    show (cur.peek).2.last = 0
    rw [cursor_peek_last]
    exact h

/-- C9: for every cursor state, the raw token stream contains no non-Eof
token after the first `Eof`: an `Eof` is emitted only at the sentinel byte
0, the `0 => Token::Eof` arm does not advance the cursor (only the
unconditional lookahead `peek` runs, which never changes the current
byte), so every later read finds the sentinel again and yields `Eof`. -/
theorem c9_no_token_after_eof :
    ∀ (cur : Cursor) (i j : Nat), i ≤ j →
      raw_stream_nth cur i = Token.Eof → raw_stream_nth cur j = Token.Eof := by
  intro cur i
  induction i generalizing cur with
  | zero =>
    intro j _ h0
    have hg : cur.get = 0 := next_raw_token_eof_imp cur h0
    exact raw_stream_eof_stable j cur hg
  | succ i ih =>
    intro j hij h
    obtain ⟨j', rfl⟩ : ∃ j', j = j' + 1 := ⟨j - 1, by omega⟩
    exact ih (next_raw_token cur).2 j' (by omega) h

/-- C9 witness: at the empty source every stream position is `Eof`. -/
theorem c9_no_token_after_eof_witness :
    raw_stream_nth { bytes := [], last := 0, empty := false } 3 = Token.Eof :=
  c9_no_token_after_eof { bytes := [], last := 0, empty := false } 0 3
    (by decide) (by decide)

/-- Every result of the string-scanning loop is a `String` token or one of
exactly three error tokens: unknown escape, unclosed literal, invalid
UTF-8 contents. -/
theorem parse_string_loop_cases :
    ∀ (fuel delim : Nat) (bytes : List Nat) (ch : Nat) (cur : Cursor) tok c,
      parse_string_loop fuel delim bytes ch cur = some (tok, c) →
      (∃ s, tok = Token.String s) ∨ tok = Token.Error ErrorMsg.UnclosedString ∨
      (∃ e, tok = Token.Error (ErrorMsg.UnknownEscape e)) ∨
      tok = Token.Error ErrorMsg.InvalidStringContents := by
  intro fuel
  induction fuel with
  | zero => intro _ _ _ _ tok c h; simp [parse_string_loop] at h
  | succ fuel ih =>
    intro delim bytes ch cur tok c h
    rw [parse_string_loop] at h
    dsimp only at h
    split at h
    · split at h
      · split at h
        · exact ih _ _ _ _ _ _ h
        · simp only [Option.some.injEq, Prod.mk.injEq] at h
          exact Or.inr (Or.inr (Or.inl ⟨_, h.1.symm⟩))
      · exact ih _ _ _ _ _ _ h
    · split at h
      · simp only [Option.some.injEq, Prod.mk.injEq] at h
        exact Or.inr (Or.inl h.1.symm)
      · split at h <;> simp only [Option.some.injEq, Prod.mk.injEq] at h
        · exact Or.inl ⟨_, h.1.symm⟩
        · exact Or.inr (Or.inr (Or.inr h.1.symm))

/-- The fuel passed by `parse_string` suffices: the loop consumes input on
every iteration, so it never runs out. -/
theorem parse_string_loop_isSome :
    ∀ (fuel delim : Nat) (bytes : List Nat) (ch : Nat) (cur : Cursor),
      (if cur.empty then 1 else cur.bytes.length + 2) ≤ fuel →
      (parse_string_loop fuel delim bytes ch cur).isSome := by
  intro fuel
  induction fuel with
  | zero =>
    intro delim bytes ch cur hm
    split at hm <;> omega
  | succ fuel ih =>
    intro delim bytes ch cur hm
    obtain ⟨bs, lst, emp⟩ := cur
    cases emp with
    | true =>
      rw [parse_string_loop]
      dsimp only
      rw [if_neg (by simp [Cursor.is_empty])]
      split
      · simp
      · split <;> simp
    | false =>
      simp only [if_false] at hm
      rw [parse_string_loop]
      dsimp only
      split
      · rcases bs with _ | ⟨b, rest⟩
        · split
          · -- escape at exhausted source: escape_byte 0 = none, immediate return
            simp [Cursor.next, escape_byte]
          · -- plain byte: recurse on the now-empty cursor
            simp only [Cursor.next]
            apply ih
            simp at hm ⊢
            omega
        · split
          · -- escape: the escape byte is read, then one more byte
            simp only [Cursor.next]
            split
            · apply ih
              rcases rest with _ | ⟨b2, rest2⟩ <;> simp [Cursor.next] <;> simp at hm <;> omega
            · simp
          · simp only [Cursor.next]
            apply ih
            simp at hm ⊢
            omega
      · split
        · simp
        · split <;> simp

/-- C8: the escape table and the error cases of `parse_string`.  Each of
the nine escape sequences decodes to its claimed byte, for both `"` and
`'` delimiters; a backslash followed by a byte outside the table yields
the unknown-escape error; a literal unclosed at end of input yields the
unclosed error; accumulated bytes that are not valid UTF-8 yield the
invalid-contents error; and (exactly-three) every `parse_string` result
is a `String` token or one of those three errors. -/
theorem c8_string_escapes_and_errors :
    (∀ p ∈ [(48,0),(98,7),(116,9),(110,10),(118,11),(114,13),(34,34),(39,39),(92,92)],
      (parse_string { bytes := [92, (p : Nat × Nat).1, 34], last := 34, empty := false }).1 =
        Token.String [p.2]) ∧
    (∀ (fuel delim : Nat) (bytes : List Nat) (cur : Cursor),
      delim ≠ 92 → cur.empty = false → escape_byte (cur.next).1 = none →
      parse_string_loop (fuel+1) delim bytes 92 cur =
        some (Token.Error (ErrorMsg.UnknownEscape (cur.next).1), (cur.next).2)) ∧
    (parse_string { bytes := [97, 98], last := 34, empty := false }).1 =
      Token.Error ErrorMsg.UnclosedString ∧
    (parse_string { bytes := [255, 34], last := 34, empty := false }).1 =
      Token.Error ErrorMsg.InvalidStringContents ∧
    (parse_string { bytes := [92, 110, 39], last := 39, empty := false }).1 =
      Token.String [10] ∧
    (∀ cur : Cursor, (∃ s, (parse_string cur).1 = Token.String s) ∨
      (parse_string cur).1 = Token.Error ErrorMsg.UnclosedString ∨
      (∃ e, (parse_string cur).1 = Token.Error (ErrorMsg.UnknownEscape e)) ∨
      (parse_string cur).1 = Token.Error ErrorMsg.InvalidStringContents) := by
  refine ⟨by decide, ?_, by decide, by decide, by decide, ?_⟩
  · intro fuel delim bytes cur hdelim hemp hb
    rw [parse_string_loop]
    dsimp only
    rw [if_pos (by simp [Cursor.is_empty, hemp, bne_iff_ne, Ne.symm hdelim])]
    rw [if_pos (by decide)]
    rw [hb]
  · intro cur
    unfold parse_string
    dsimp only
    rcases hres : parse_string_loop ((cur.next).2.bytes.length + 2) cur.get []
        (cur.next).1 (cur.next).2 with _ | ⟨tok, c2⟩
    · exfalso
      have hs := parse_string_loop_isSome ((cur.next).2.bytes.length + 2) cur.get []
        (cur.next).1 (cur.next).2 (by split <;> omega)
      rw [hres] at hs
      simp at hs
    · dsimp only
      exact parse_string_loop_cases _ _ _ _ _ _ _ hres

/-- C8 witness: the table entry for backslash-zero and the unknown-escape
error at the concrete byte `x` (120). -/
theorem c8_string_escapes_and_errors_witness :
    (parse_string { bytes := [92, 48, 34], last := 34, empty := false }).1 =
      Token.String [0] ∧
    parse_string_loop (3+1) 34 [] 92 { bytes := [120, 34], last := 92, empty := false } =
      some (Token.Error (ErrorMsg.UnknownEscape 120),
            { bytes := [34], last := 120, empty := false }) := by
  constructor
  · exact c8_string_escapes_and_errors.1 (48, 0) (by decide)
  · exact c8_string_escapes_and_errors.2.1 3 34 [] _ (by decide) rfl (by decide)

/-- An operand token of a simple alternation run: number, string or name. -/
def is_operand : Token → Bool
  | .Number _ => true
  | .String _ => true
  | .Name _ => true
  | _ => false

/-- A plain binary operator token: real precedence, not one of the two
unary operators. -/
def is_simple_binary : Token → Bool
  | .Operator op =>
    decide (1 ≤ op.get_prec) && !(op == Operator.UnaryMinus) && !(op == Operator.UnaryNot)
  | _ => false

/-- Tail of an alternation run: (operator, operand) pairs. -/
def alt_tail : List Token → Bool
  | [] => true
  | o :: t :: rest => is_simple_binary o && is_operand t && alt_tail rest
  | _ => false

/-- An alternation run: an operand followed by (operator, operand) pairs. -/
def alt_chain : List Token → Bool
  | [] => false
  | t :: rest => is_operand t && alt_tail rest

/-- All stacked operators are plain binary ones. -/
def simple_ops (ros : List Operator) : Prop :=
  ∀ o ∈ ros, 1 ≤ o.get_prec ∧ o ≠ Operator.UnaryMinus ∧ o ≠ Operator.UnaryNot

/-- One loop step extends to the whole run. -/
theorem sy_run_cons (a : Token) (l : List Token) (st st' : SYState)
    (h : sy_step st a = some st') : sy_run (a :: l) st = sy_run l st' := by
  rw [sy_run, h]

/-- Running a concatenation is running the parts in sequence. -/
theorem sy_run_append :
    ∀ (xs ys : List Token) (st : SYState),
      sy_run (xs ++ ys) st =
        match sy_run xs st with
        | none => none
        | some st' => sy_run ys st' := by
  intro xs
  induction xs with
  | nil => intro ys st; rfl
  | cons a l ih =>
    intro ys st
    rw [List.cons_append, sy_run, sy_run]
    rcases sy_step st a with _ | st' <;> dsimp only
    exact ih ys st'

/-- Applying a plain binary operator builds a `Binary` node from the two
topmost values. -/
theorem apply_op_binary (op : Operator) (h1 : op ≠ Operator.UnaryMinus)
    (h2 : op ≠ Operator.UnaryNot) (v1 v2 : Expression) (vrest : List Expression) :
    apply_op op (v1 :: v2 :: vrest) = some (Expression.Binary op v2 v1 :: vrest) := by
  unfold apply_op
  dsimp only
  rw [if_neg (by simp [h1, h2])]

/-- An operand token pushes one value and clears the unary flag. -/
theorem sy_step_operand (t : Token) (h : is_operand t = true) (st : SYState) :
    ∃ v cb, sy_step st t =
      some { values := v :: st.values, operators := st.operators,
             valid_unary_position := false, is_callable := cb } := by
  cases t <;> simp [is_operand] at h <;> exact ⟨_, _, rfl⟩

/-- Draining a stack of plain binary operators down to the sentinel
`Paren` consumes all of them, pairing values into `Binary` nodes, and
ends with a single value (the `Invalid` fallback is never reached). -/
theorem drain_simple :
    ∀ (ros : List Operator) (vals : List Expression),
      simple_ops ros → vals.length = ros.length + 1 →
      ∃ v, drain_to_paren (ros ++ [Operator.Paren]) vals = some ([v], [Operator.Paren]) := by
  intro ros
  induction ros with
  | nil =>
    intro vals _ hlen
    rcases vals with _ | ⟨v, _ | _⟩ <;> simp at hlen
    exact ⟨v, rfl⟩
  | cons r1 rs ih =>
    intro vals hs hlen
    rcases vals with _ | ⟨v1, _ | ⟨v2, vrest⟩⟩ <;> simp at hlen
    obtain ⟨hp, hm, hn⟩ := hs r1 (List.mem_cons_self r1 rs)
    have hrs : simple_ops rs := fun o ho => hs o (List.mem_cons_of_mem r1 ho)
    rw [List.cons_append, drain_to_paren]
    rw [if_neg (by simp; intro he; rw [he] at hp; simp [Operator.get_prec] at hp)]
    rw [if_pos (by omega)]
    rw [apply_op_binary r1 hm hn v1 v2 vrest]
    exact ih (Expression.Binary r1 v2 v1 :: vrest) hrs (by simp; omega)

/-- Processing a plain binary operator token from a good state drains at
most the topmost stacked operator and pushes the incoming one, leaving
again only plain binary operators above the wrapper `Paren` and one more
value than stacked operators (counting the pushed operator as expecting
its right operand). -/
theorem sy_step_simple_operator (st : SYState) (op : Operator) (ros : List Operator)
    (hops : st.operators = ros ++ [Operator.Paren])
    (hlen : st.values.length = ros.length + 1)
    (hsimple : simple_ops ros)
    (hprec : 1 ≤ op.get_prec)
    (_hum : op ≠ Operator.UnaryMinus) (_hun : op ≠ Operator.UnaryNot)
    (huna : st.valid_unary_position = false) :
    ∃ st1 ros1, sy_step st (Token.Operator op) = some st1 ∧
      st1.operators = (op :: ros1) ++ [Operator.Paren] ∧
      st1.values.length = ros1.length + 1 ∧
      simple_ops ros1 ∧
      st1.valid_unary_position = true := by
  have hstep : sy_step st (Token.Operator op) =
      (match consume_operator st.values st.operators op.get_prec with
       | none => none
       | some (values, operators) =>
         some { st with values := values, operators := op :: operators,
                        is_callable := false, valid_unary_position := true }) := by
    show (if st.valid_unary_position then _ else _) = _
    rw [huna]
    rfl
  rcases ros with _ | ⟨r1, rs⟩
  · -- only the wrapper paren on the stack: nothing drained
    rw [hstep, hops]
    simp only [List.nil_append]
    rw [consume_operator.eq_def]
    dsimp only
    rw [if_neg (show ¬(Operator.Paren.get_prec > op.get_prec) from by
      show ¬((0 : Int) > op.get_prec); omega)]
    exact ⟨_, [], rfl, by simp, by simpa using hlen, hsimple, rfl⟩
  · obtain ⟨hp1, hm1, hn1⟩ := hsimple r1 (List.mem_cons_self r1 rs)
    have hrs : simple_ops rs := fun o ho => hsimple o (List.mem_cons_of_mem r1 ho)
    rw [hstep, hops, List.cons_append, consume_operator.eq_def]
    dsimp only
    by_cases hcmp : r1.get_prec > op.get_prec
    · rw [if_pos hcmp]
      rcases hv : st.values with _ | ⟨v1, _ | ⟨v2, vrest⟩⟩ <;>
        (rw [hv] at hlen; simp at hlen)
      rw [apply_op_binary r1 hm1 hn1 v1 v2 vrest]
      refine ⟨_, rs, rfl, by simp, ?_, hrs, rfl⟩
      simp
      omega
    · rw [if_neg hcmp]
      refine ⟨_, r1 :: rs, rfl, by simp, ?_, hsimple, rfl⟩
      simp at hlen ⊢
      omega

/-- The alternation-tail invariant: from a good state, running an
(operator, operand)* tail succeeds and reestablishes the invariant. -/
theorem sy_run_alt_tail :
    ∀ (tail : List Token), alt_tail tail = true →
    ∀ (st : SYState) (ros : List Operator),
      st.operators = ros ++ [Operator.Paren] →
      st.values.length = ros.length + 1 →
      simple_ops ros →
      st.valid_unary_position = false →
      ∃ (st' : SYState) (ros' : List Operator),
        sy_run tail st = some st' ∧
        st'.operators = ros' ++ [Operator.Paren] ∧
        st'.values.length = ros'.length + 1 ∧
        simple_ops ros' ∧
        st'.valid_unary_position = false := by
  intro tail
  induction tail using alt_tail.induct with
  | case1 =>
    intro _ st ros h1 h2 h3 h4
    exact ⟨st, ros, rfl, h1, h2, h3, h4⟩
  | case2 o t rest ih =>
    intro htail st ros h1 h2 h3 h4
    simp only [alt_tail, Bool.and_eq_true] at htail
    obtain ⟨⟨hsb, hopnd⟩, hrest⟩ := htail
    rcases o with _ | _ | _ | _ | _ | _ | _ | _ | _ | op | _ | _ | _ | _ | _ | _ | _ | _ | _ | _ | _ | _ | _ | _ | _ | _ | _ <;>
      try (simp [is_simple_binary] at hsb)
    obtain ⟨⟨hprec, hum⟩, hun⟩ := hsb
    obtain ⟨st1, ros1, hstep1, ho1, hl1, hs1, hu1⟩ :=
      sy_step_simple_operator st op ros h1 h2 h3 hprec hum hun h4
    obtain ⟨v, cb, hstep2⟩ := sy_step_operand t hopnd st1
    rw [sy_run_cons _ _ _ _ hstep1, sy_run_cons _ _ _ _ hstep2]
    exact ih hrest _ (op :: ros1) (by simpa using ho1)
      (by simp [hl1])
      (fun o ho => by
        rcases List.mem_cons.mp ho with rfl | ho2
        · exact ⟨hprec, hum, hun⟩
        · exact hs1 o ho2)
      rfl
  | case3 x h1 h2 =>
    intro htail
    rcases x with _ | ⟨a, _ | ⟨b, l⟩⟩
    · exact absurd rfl h1
    · intro st ros _ _ _ _; simp [alt_tail] at htail
    · exact absurd rfl (h2 a b l)

/-- C7 (amended): for a buffer whose run is an alternation of operands
(`Number`/`String`/`Name`) and plain binary operators, `Expression::new`
terminates with an empty operator stack and exactly one value, returning
that value; classifier-handed buffers outside this family can violate the
final assertions. -/
theorem c7_alternation_ok :
    ∀ run, alt_chain run = true →
      ∃ e, expression_new (Token.LParen :: (run ++ [Token.RParen])) = some e := by
  intro run hrun
  rcases run with _ | ⟨t, rest⟩
  · simp [alt_chain] at hrun
  simp only [alt_chain, Bool.and_eq_true] at hrun
  obtain ⟨ht, htail⟩ := hrun
  have h0 : sy_step sy_init Token.LParen =
      some ⟨[], [Operator.Paren], true, false⟩ := rfl
  obtain ⟨v, cb, hstep_t⟩ := sy_step_operand t ht ⟨[], [Operator.Paren], true, false⟩
  obtain ⟨st3, ros3, hrun3, hops3, hlen3, hsimp3, huna3⟩ :=
    sy_run_alt_tail rest htail
      { values := [v], operators := [Operator.Paren],
        valid_unary_position := false, is_callable := cb } []
      rfl rfl (fun o ho => absurd ho (List.not_mem_nil o)) rfl
  obtain ⟨vfin, hdrain⟩ := drain_simple ros3 st3.values hsimp3 hlen3
  have hstepRP : sy_step st3 Token.RParen =
      some { values := [vfin], operators := [],
             valid_unary_position := false, is_callable := false } := by
    show (match drain_to_paren st3.operators st3.values with
          | none => none
          | some (values, operators) => _) = _
    rw [hops3, hdrain]
    rfl
  refine ⟨vfin, ?_⟩
  unfold expression_new
  rw [show Token.LParen :: ((t :: rest) ++ [Token.RParen]) =
        Token.LParen :: t :: (rest ++ [Token.RParen]) from rfl]
  rw [sy_run_cons _ _ _ _ h0, sy_run_cons _ _ _ _ hstep_t, sy_run_append, hrun3]
  dsimp only
  rw [sy_run_cons _ _ _ _ hstepRP]
  rfl

/-- C7 witness: the alternation `2 ** 3 + 4` (the counterexample's sibling
with no parentheses) satisfies both final assertions. -/
theorem c7_alternation_ok_witness :
    ∃ e, expression_new
      (Token.LParen :: ([Token.Number (NumVal.ofNat 2), Token.Operator Operator.Power,
        Token.Number (NumVal.ofNat 3), Token.Operator Operator.Plus,
        Token.Number (NumVal.ofNat 4)] ++ [Token.RParen])) = some e :=
  c7_alternation_ok
    [Token.Number (NumVal.ofNat 2), Token.Operator Operator.Power,
     Token.Number (NumVal.ofNat 3), Token.Operator Operator.Plus,
     Token.Number (NumVal.ofNat 4)] (by decide)

/-- Depth discipline: while no depth fault has been recorded, the wrapped
`u8` depth agrees with the unbounded ghost depth, stays in the `u8`
range, and no underflow has happened. -/
def depth_ok (st : LexerState) : Prop :=
  st.depth_fault = false →
    st.underflowed = false ∧ (st.paren_depth : Int) = st.true_depth ∧
    0 ≤ st.true_depth ∧ st.true_depth ≤ 255

/-- The per-token depth update preserves the depth discipline. -/
theorem depth_update_ok (st : LexerState) (tt : TokenType) (h : depth_ok st) :
    depth_ok (depth_update st tt) := by
  cases tt <;> try exact h
  case LParen =>
    intro hf
    simp only [depth_update, Bool.or_eq_false_iff, decide_eq_false_iff_not, not_le] at hf
    obtain ⟨hf1, hf2⟩ := hf
    obtain ⟨hu, hpd, h0, _⟩ := h hf1
    simp only [depth_update]
    refine ⟨hu, ?_, by omega, by omega⟩
    have hlt : st.paren_depth + 1 < 256 := by omega
    rw [Nat.mod_eq_of_lt hlt]
    omega
  case RParen =>
    intro hf
    simp only [depth_update, Bool.or_eq_false_iff, decide_eq_false_iff_not, not_le] at hf
    obtain ⟨hf1, hf2⟩ := hf
    obtain ⟨hu, hpd, h0, h255⟩ := h hf1
    have hpd0 : st.paren_depth ≠ 0 := by omega
    simp only [depth_update]
    refine ⟨by simp [hu, hpd0], ?_, by omega, by omega⟩
    have h1 : st.paren_depth + 255 = (st.paren_depth - 1) + 256 := by omega
    rw [h1, Nat.add_mod_right, Nat.mod_eq_of_lt (by omega)]
    omega

/-- The expression collection loop preserves the depth discipline. -/
theorem collect_loop_ok :
    ∀ (toks : List Token) (st : LexerState) (tt : TokenType),
      depth_ok st → depth_ok (collect_loop st tt toks).2.1 := by
  intro toks
  induction toks with
  | nil =>
    intro st tt h
    exact depth_update_ok st tt h
  | cons t rest ih =>
    intro st tt h
    rw [collect_loop]
    dsimp only
    split
    · exact ih _ _ (depth_update_ok st tt h)
    · exact depth_update_ok st tt h

/-- One classifier step preserves the depth discipline. -/
theorem lexer_next_ok (st : LexerState) (toks : List Token) (h : depth_ok st) :
    ∀ tok st' rest, lexer_next st toks = some (tok, st', rest) → depth_ok st' := by
  intro tok st' rest heq
  unfold lexer_next at heq
  rcases toks with _ | ⟨t, ts⟩ <;> dsimp only [next_tok] at heq
  · repeat' split at heq
    all_goals first
      | exact Option.noConfusion heq
      | (simp only [Option.some.injEq, Prod.mk.injEq] at heq
         obtain ⟨-, hst, -⟩ := heq
         rw [← hst]
         exact h)
  · cases t <;> dsimp only at heq <;> repeat' split at heq
    all_goals first
      | exact Option.noConfusion heq
      | (simp only [Option.some.injEq, Prod.mk.injEq] at heq
         obtain ⟨-, hst, -⟩ := heq
         rw [← hst]
         first
           | exact h
           | exact collect_loop_ok _ _ _ h)

/-- The classifier stream loop preserves the depth discipline. -/
theorem lexer_run_loop_ok :
    ∀ (fuel : Nat) (st : LexerState) (toks : List Token) (out : List Token)
      (stf : LexerState), depth_ok st →
      lexer_run_loop fuel st toks = some (out, stf) → depth_ok stf := by
  intro fuel
  induction fuel with
  | zero => intro st toks out stf _ h; simp [lexer_run_loop] at h
  | succ fuel ih =>
    intro st toks out stf h heq
    rw [lexer_run_loop] at heq
    rcases hn : lexer_next st toks with _ | ⟨tok, st1, rest⟩
    · rw [hn] at heq; exact Option.noConfusion heq
    · rw [hn] at heq
      dsimp only at heq
      have h1 : depth_ok st1 := lexer_next_ok st toks h tok st1 rest hn
      split at heq
      · simp only [Option.some.injEq, Prod.mk.injEq] at heq
        obtain ⟨-, hst⟩ := heq
        rw [← hst]
        exact h1
      · rcases hr : lexer_run_loop fuel { st1 with last_token_type := tok.to_type }
            rest with _ | ⟨out2, stf2⟩
        · rw [hr] at heq; exact Option.noConfusion heq
        · rw [hr] at heq
          simp only [Option.some.injEq, Prod.mk.injEq] at heq
          obtain ⟨-, hst⟩ := heq
          rw [← hst]
          exact ih { st1 with last_token_type := tok.to_type } rest out2 stf2 h1 hr

/-- C6 (amended): the classifier's `u8` paren depth never underflows as
long as the ghost (unbounded) depth never faults, i.e. never exceeds 255
and never closes below zero: a completed run whose final state records no
depth fault records no underflow either.  (The unamended claim is refuted
by `c6_counterexample`: 257 nested parens wrap the `u8` counter to 0 and
a subsequent RParen then underflows while the stream still reaches Eof.) -/
theorem c6_no_underflow_without_fault :
    ∀ (toks out : List Token) (stf : LexerState),
      lexer_run toks = some (out, stf) →
      stf.depth_fault = false → stf.underflowed = false := by
  intro toks out stf h hf
  have hinit : depth_ok lexer_init := by
    intro _
    refine ⟨rfl, rfl, by decide, by decide⟩
  exact ((lexer_run_loop_ok _ _ _ _ _ hinit h) hf).1

/-- Witness: the depth-fault-free run on a lone `Eof` token ends without
underflow. -/
theorem c6_no_underflow_without_fault_witness :
    (({ lexer_init with last_token_type := TokenType.Eof } : LexerState)).underflowed
      = false :=
  c6_no_underflow_without_fault [Token.Eof] [Token.Eof]
    { lexer_init with last_token_type := TokenType.Eof } (by decide) (by decide)
